import Mathlib

/-
Formal model of the distributed file storage service
(src/file_server.py, src/discovery_server.py).

Strings are modeled as lists of characters (Str), so that the
whitespace-driven tokenization performed by Python str.split()
is captured faithfully.  Modification timestamps (Python floats
obtained from os.path.getmtime) are modeled as natural numbers;
their decimal wire rendering and re-parsing is modeled by
natRepr / natParse, which preserves the ordering semantics and
the render/parse round trip that the protocol relies on.
Network effects are modeled by passing each peer connection
outcome explicitly: a value (none) models a connection or read
that raises, (some r) models a stripped reply string r.
Exceptions that the Python code does not catch are modeled with
Except (for latest_timestamp) or with a dedicated crash result
(for get_file).
-/

set_option maxRecDepth 10000

abbrev Str := List Char

/-- The whitespace characters recognized by Python str.split() and str.strip(). -/
def isPySpace (c : Char) : Bool :=
  c = ' ' || c = '\t' || c = '\n' || c = '\r' || c = '\x0b' || c = '\x0c'

/-- Helper for pySplit: accumulates the current token in reverse. -/
def pySplitAux : Str → Str → List Str
  | [], [] => []
  | [], acc => [acc.reverse]
  | c :: rest, acc =>
    if isPySpace c then
      match acc with
      | [] => pySplitAux rest []
      | _ :: _ => acc.reverse :: pySplitAux rest []
    else
      pySplitAux rest (c :: acc)

/-- Python s.split() with no argument: split on runs of whitespace, dropping empties. -/
def pySplit (s : Str) : List Str := pySplitAux s []

/-- Python s.split(sep) for a one-character separator: keeps empty fields. -/
def splitChar (sep : Char) : Str → List Str
  | [] => [[]]
  | c :: rest =>
    if c = sep then
      [] :: splitChar sep rest
    else
      match splitChar sep rest with
      | t :: ts => (c :: t) :: ts
      | [] => [[c]]

/-- Python s.strip(): remove leading and trailing whitespace. -/
def pyStrip (s : Str) : Str :=
  ((s.dropWhile isPySpace).reverse.dropWhile isPySpace).reverse

/-- Python newline.join(lines). -/
def joinNL : List Str → Str
  | [] => []
  | [l] => l
  | l :: rest => l ++ '\n' :: joinNL rest

/-- Decimal digit character for n below 10. -/
def digitChar (n : Nat) : Char :=
  match n with
  | 0 => '0' | 1 => '1' | 2 => '2' | 3 => '3' | 4 => '4'
  | 5 => '5' | 6 => '6' | 7 => '7' | 8 => '8' | 9 => '9'
  | _ => '?'

def isDigitChar (c : Char) : Bool := decide ('0' ≤ c) && decide (c ≤ '9')

def digitVal (c : Char) : Nat := c.toNat - 48

/-- Fuel-driven helper for natRepr; the fuel always suffices when it
exceeds the number being rendered. -/
def natReprAux : Nat → Nat → Str
  | _, 0 => []
  | n, fuel + 1 =>
    if n < 10 then [digitChar n]
    else natReprAux (n / 10) fuel ++ [digitChar (n % 10)]

/-- Decimal rendering of a natural number (models str of a Python timestamp). -/
def natRepr (n : Nat) : Str := natReprAux n (n + 1)

/-- Numeric parse of a wire token (models Python float applied to a
decimal rendering; a non-numeric token makes Python raise ValueError,
modeled as none). -/
def natParse (s : Str) : Option Nat :=
  if s ≠ [] ∧ s.all isDigitChar then
    some (s.foldl (fun a c => 10 * a + digitVal c) 0)
  else none

/-- src/file_server.py validate_filename: the filename is accepted iff it
is nonempty, contains no forward slash, no backslash, no occurrence of
two consecutive dots, and has length below 255. -/
def validate_filename (f : Str) : Bool :=
  !f.isEmpty &&
  !(decide ('/' ∈ f)) &&
  !(decide ('\\' ∈ f)) &&
  !(decide (['.', '.'] <:+: f)) &&
  decide (f.length < 255)

/-- A file stored in the STORAGE directory: modification time and raw bytes. -/
structure FileEntry where
  mtime : Nat
  content : List Nat
deriving DecidableEq, Repr

/-- The local state a file server node works with: the contents of its
STORAGE directory (flat, keyed by filename) and its own identity token,
the rendering of HOST:SOCK_PORT. -/
structure FsState where
  files : List (Str × FileEntry)
  host : Str
deriving DecidableEq, Repr

/-- Lookup of a filename in the storage directory. -/
def lookupFile : List (Str × FileEntry) → Str → Option FileEntry
  | [], _ => none
  | (g, e) :: rest, f => if g = f then some e else lookupFile rest f

/-- The formatted protocol message built by get_timestamp:
Last-Modified filename timestamp host. -/
def lm_message (f : Str) (t : Nat) (host : Str) : Str :=
  "Last-Modified ".data ++ f ++ ' ' :: natRepr t ++ ' ' :: host

/-- src/file_server.py get_timestamp: validate the filename, then if the
file exists locally return the formatted Last-Modified message, else none. -/
def get_timestamp (st : FsState) (f : Str) : Option Str :=
  if validate_filename f then
    match lookupFile st.files f with
    | some e => some (lm_message f e.mtime st.host)
    | none => none
  else none

-- ===== Replication engine (src/file_server.py) =====

/-- The generic error sentinel sent when a dispatcher handler raises. -/
def error_sentinel : Str := "Error processing request".data

/-- A reply written to a peer socket: a text message, raw file bytes, or
no bytes at all (the connection is closed without writing). -/
inductive SockReply
  | text (s : Str)
  | raw (b : List Nat)
  | silent
deriving DecidableEq, Repr

/-- src/file_server.py handle_socket_request.  The second component
collects the filenames that are passed to os.path.join with the STORAGE
directory (the filesystem accesses made by the handler): the
Last-Modified-Check branch only touches the filesystem after
get_timestamp validated the filename, the File-Provision-Request branch
joins and probes the path unconditionally, the listing branch touches no
filename.  A missing filename token models the IndexError that the
except clause converts into the error sentinel. -/
def handle_socket_request (st : FsState) (data : Str) : SockReply × List Str :=
  if List.isPrefixOf "Last-Modified-Check".data data then
    match (pySplit data)[1]? with
    | some f =>
      (match get_timestamp st f with
       | some r => SockReply.text r
       | none => SockReply.text "File not found".data,
       if validate_filename f then [f] else [])
    | none => (SockReply.text error_sentinel, [])
  else if List.isPrefixOf "File-Provision-Request".data data then
    match (pySplit data)[1]? with
    | some f =>
      (match lookupFile st.files f with
       | some e => SockReply.raw e.content
       | none => SockReply.text "File not found".data,
       [f])
    | none => (SockReply.text error_sentinel, [])
  else if List.isPrefixOf "Index-Listing-Request".data data then
    (SockReply.text ("Index-Listing".data ++ '\n' :: joinNL (st.files.map (fun p => p.1)) ++ ['\n']), [])
  else
    (SockReply.silent, [])

/-- The reply a node produces when it receives its own timestamp query
for filename f: the dispatcher is applied to the stripped wire message
Last-Modified-Check f. -/
def self_reply (st : FsState) (f : Str) : Option Str :=
  match (handle_socket_request st (pyStrip ("Last-Modified-Check ".data ++ f ++ ['\n']))).1 with
  | SockReply.text s => some s
  | _ => none

/-- Parsing of a peer reply inside the latest_timestamp loop: the tuple
unpacking of response.split() into exactly four tokens followed by
float(timestamp); any failure raises and is caught by the loop. -/
def parse_last_modified (r : Str) : Option (Nat × Str) :=
  match pySplit r with
  | [_, _, ts, node] => (natParse ts).map (fun t => (t, node))
  | _ => none

/-- The peer loop of latest_timestamp: state is (latest_ts, latest,
latest_node); a none entry models a connection that raised and was
logged; a reply is adopted only when its timestamp is strictly greater
than the current best. -/
def peer_scan : List (Option Str) → Nat → Option Str → Option Str → Nat × Option Str × Option Str
  | [], ts, lat, nod => (ts, lat, nod)
  | none :: rest, ts, lat, nod => peer_scan rest ts lat nod
  | some r :: rest, ts, lat, nod =>
    if List.isPrefixOf "Last-Modified".data r then
      match parse_last_modified r with
      | some (t, n) =>
        if ts < t then peer_scan rest t (some r) (some n)
        else peer_scan rest ts lat nod
      | none => peer_scan rest ts lat nod
    else peer_scan rest ts lat nod

/-- src/file_server.py latest_timestamp.  The initial latest_ts is
float(latest.split()[2]) when a local claim exists (this parse is not
inside any try, so its failure raises out of the function, modeled as
Except.error) and 0 otherwise; peers are then scanned in order. -/
def latest_timestamp (st : FsState) (f : Str) (peers : List (Option Str)) :
    Except Unit (Option Str × Option Str) :=
  match get_timestamp st f with
  | none =>
    let s := peer_scan peers 0 none none
    Except.ok (s.2.1, s.2.2)
  | some m =>
    match (pySplit m)[2]? with
    | none => Except.error ()
    | some tok =>
      match natParse tok with
      | none => Except.error ()
      | some t0 =>
        let s := peer_scan peers t0 (some m) none
        Except.ok (s.2.1, s.2.2)

/-- The local timestamp that conflict resolution starts from: the local
modification time when the filename validates and the file exists, and
0 otherwise. -/
def local_ts (st : FsState) (f : Str) : Nat :=
  if validate_filename f then
    match lookupFile st.files f with
    | some e => e.mtime
    | none => 0
  else 0

/-- Outcome of the HTTP GET handler: 400, 404, the formatted download
error (HTTP 500), an uncaught exception (also surfaced by Flask as HTTP
500), or serving the local file from the resulting storage state. -/
inductive GetFileResult
  | invalid
  | notFound
  | fetchError
  | crash
  | serve (files : List (Str × FileEntry))
deriving DecidableEq, Repr

/-- Writing fetched bytes to the local storage: the entry for f is
replaced (or created) and its modification time becomes the write time. -/
def writeFile (files : List (Str × FileEntry)) (f : Str) (d : List Nat) (now : Nat) :
    List (Str × FileEntry) :=
  match files with
  | [] => [(f, ⟨now, d⟩)]
  | (g, e) :: rest => if g = f then (f, ⟨now, d⟩) :: rest else (g, e) :: writeFile rest f d now

/-- The addressing-and-fetch step of get_file against the winning owner
token: split on the colon into exactly host and port, parse the port,
and perform the byte fetch; none models any failure in this phase. -/
def fetch_phase (n : Str) (fetch : Str → Nat → Option (List Nat)) : Option (List Nat) :=
  match splitChar ':' n with
  | [h, p] =>
    match natParse p with
    | some pn => fetch h pn
    | none => none
  | _ => none

/-- The part of get_file after conflict resolution (src/file_server.py
lines 212 to 233): the 404 check on (latest, local existence), then,
when a remote owner won, the owner split on the colon (outside the try
block: failure is an uncaught ValueError, modeled as crash), int(port)
and the socket I/O inside the try block (failure returns the formatted
500, modeled as fetchError), the local overwrite, and finally serving
the local file. -/
def get_file_after (st : FsState) (f : Str) (fetch : Str → Nat → Option (List Nat))
    (now : Nat) (lat nod : Option Str) : GetFileResult :=
  if lat.isNone && (lookupFile st.files f).isNone then GetFileResult.notFound
  else
    match nod with
    | some n =>
      if n ≠ st.host then
        match splitChar ':' n with
        | [h, p] =>
          match natParse p with
          | some pn =>
            match fetch h pn with
            | some d => GetFileResult.serve (writeFile st.files f d now)
            | none => GetFileResult.fetchError
          | none => GetFileResult.fetchError
        | _ => GetFileResult.crash
      else GetFileResult.serve st.files
    | none => GetFileResult.serve st.files

/-- src/file_server.py get_file (HTTP GET): validate, resolve, and if a
remote owner won, fetch its bytes and overwrite the local copy before
serving.  fetch h p gives the bytes read from peer (h, p), none modeling
a raised connection or read. -/
def get_file (st : FsState) (f : Str) (peers : List (Option Str))
    (fetch : Str → Nat → Option (List Nat)) (now : Nat) : GetFileResult :=
  if validate_filename f = false then GetFileResult.invalid
  else
    match latest_timestamp st f peers with
    | Except.error _ => GetFileResult.crash
    | Except.ok (lat, nod) => get_file_after st f fetch now lat nod

-- ===== Discovery service (src/discovery_server.py) =====

/-- The eviction threshold NODE_TIMEOUT. -/
def NODE_TIMEOUT : Nat := 3

/-- A registry record: last_seen time and the missed-update counter. -/
structure NodeRec where
  last_seen : Nat
  missed_updates : Nat
deriving DecidableEq, Repr

/-- A node address as registered: the (host, port) pair of strings
obtained from splitting the join token on the colon. -/
abbrev DAddr := Str × Str

abbrev Registry := List (DAddr × NodeRec)

/-- Lookup in the registry dictionary. -/
def lookupN : Registry → DAddr → Option NodeRec
  | [], _ => none
  | (b, r) :: rest, a => if b = a then some r else lookupN rest a

/-- One pass of src/discovery_server.py update_nodes: every snapshotted
node is pushed to (ok tells whether the push was acknowledged), success
resets the missed counter, failure increments it, and every node whose
counter reached NODE_TIMEOUT is deleted after the pass. -/
def update_nodes_pass (reg : Registry) (ok : DAddr → Bool) : Registry :=
  (reg.map (fun p =>
    (p.1, if ok p.1 then { p.2 with missed_updates := 0 }
          else { p.2 with missed_updates := p.2.missed_updates + 1 }))).filter
    (fun p => decide (p.2.missed_updates < NODE_TIMEOUT))

/-- The addresses a pass pushes the listing to: the snapshot of the
registry keys at the start of the pass. -/
def pushed_set (reg : Registry) : List DAddr := reg.map (fun p => p.1)

/-- Rendering host:port of a registered address. -/
def render_address (a : DAddr) : Str := a.1 ++ ':' :: a.2

/-- The listing message: Peer-Node-Address-Listing, then one address per
line, then a trailing newline. -/
def listing_message (addrs : List DAddr) : Str :=
  "Peer-Node-Address-Listing".data ++ '\n' :: joinNL (addrs.map render_address) ++ ['\n']

/-- src/discovery_server.py handle_node_registration, after parsing the
join token: insert the address with missed_updates 0 and last_seen now
only when absent, then reply with the listing of all registered
addresses. -/
def register_node (reg : Registry) (a : DAddr) (now : Nat) : Registry × Str :=
  let reg' :=
    match lookupN reg a with
    | some _ => reg
    | none => reg ++ [(a, ⟨now, 0⟩)]
  (reg', listing_message (reg'.map (fun p => p.1)))

/-- src/file_server.py join_discovery_service, receiving side: on a
reply starting with Peer-Node-Address-Listing, the cached peer list
becomes the nonempty lines after the header, each split on the colon;
any other reply leaves the cache untouched (none). -/
def join_discovery_parse (resp : Str) : Option (List (List Str)) :=
  if List.isPrefixOf "Peer-Node-Address-Listing".data resp then
    some ((((splitChar '\n' resp).drop 1).filter (fun l => l ≠ [])).map (splitChar ':'))
  else none

-- ===== Statement vocabulary =====

/-- A string free of Python whitespace: protocol tokens of this shape
survive the split-based wire format unchanged. -/
def wsFree (s : Str) : Bool := s.all (fun c => !isPySpace c)

/-- A host or port token that survives the listing wire format: free of
whitespace (including the newline line separator) and of the colon used
to split host from port. -/
def token_clean (s : Str) : Bool := wsFree s && !(decide (':' ∈ s))

/-- The replies a peer scan actually adopts data from: for each peer
outcome, the reply string together with its parsed timestamp and node
token, kept only when the reply passes the startswith check and the
four-token parse. -/
def repList : List (Option Str) → List (Nat × Str × Str)
  | [] => []
  | none :: rest => repList rest
  | some r :: rest =>
    if List.isPrefixOf "Last-Modified".data r then
      match parse_last_modified r with
      | some (t, n) => (t, n, r) :: repList rest
      | none => repList rest
    else repList rest

/-- The peer timestamps that take part in the comparison. -/
def tsList (peers : List (Option Str)) : List Nat := (repList peers).map (fun x => x.1)

-- ===== Theorems =====

-- ===== C4 =====

/-- C4 (confirmed): validate_filename rejects a filename f if and only if
f is empty, or has length at least 255, or contains a forward slash, or
contains a backslash, or contains two consecutive dots as a substring. -/
theorem validate_filename_iff (f : Str) :
    validate_filename f = false ↔
      (f = [] ∨ 255 ≤ f.length ∨ '/' ∈ f ∨ '\\' ∈ f ∨ ['.', '.'] <:+: f) := by
  simp only [validate_filename, Bool.and_eq_false_iff, Bool.not_eq_false',
    Bool.not_eq_true', decide_eq_false_iff_not, decide_eq_true_iff,
    List.isEmpty_iff, not_not, not_lt]
  tauto

-- ===== Tokenization lemmas =====

theorem pySplitAux_space_append (a : Str) :
    ∀ (acc b : Str), pySplitAux (a ++ ' ' :: b) acc = pySplitAux a acc ++ pySplitAux b [] := by
  induction a with
  | nil =>
    intro acc b
    cases acc <;> simp [pySplitAux, isPySpace]
  | cons c a ih =>
    intro acc b
    by_cases hc : isPySpace c = true
    · cases acc <;> simp [pySplitAux, hc, ih]
    · simp only [Bool.not_eq_true] at hc
      simp [pySplitAux, hc, ih]

theorem pySplitAux_token (t : Str) (ht : t ≠ []) (hw : ∀ c ∈ t, isPySpace c = false) :
    ∀ acc, pySplitAux t acc = [acc.reverse ++ t] := by
  induction t with
  | nil => exact absurd rfl ht
  | cons c t ih =>
    intro acc
    have hc : isPySpace c = false := hw c (by simp)
    cases t with
    | nil => simp [pySplitAux, hc]
    | cons d t' =>
      have hstep : pySplitAux (c :: d :: t') acc = pySplitAux (d :: t') (c :: acc) := by
        simp only [pySplitAux, hc, Bool.false_eq_true, if_false]
      rw [hstep, ih (by simp) (fun x hx => hw x (by simp [hx])) (c :: acc)]
      simp

theorem pySplit_token (t : Str) (ht : t ≠ []) (hw : ∀ c ∈ t, isPySpace c = false) :
    pySplit t = [t] := by
  simpa using pySplitAux_token t ht hw []

theorem pySplit_space_append (a b : Str) :
    pySplit (a ++ ' ' :: b) = pySplit a ++ pySplit b := by
  simpa [pySplit] using pySplitAux_space_append a [] b

theorem wsFree_mem {s : Str} (h : wsFree s = true) {c : Char} (hc : c ∈ s) :
    isPySpace c = false := by
  simp only [wsFree, List.all_eq_true, Bool.not_eq_true'] at h
  exact h c hc

-- ===== natRepr and natParse =====

theorem natReprAux_fuel_irrel :
    ∀ (f1 : Nat), ∀ (f2 n : Nat), n < f1 → n < f2 → natReprAux n f1 = natReprAux n f2 := by
  intro f1
  induction f1 with
  | zero => intro f2 n h1 _; omega
  | succ f1 ih =>
    intro f2 n h1 h2
    cases f2 with
    | zero => omega
    | succ g =>
      by_cases h10 : n < 10
      · simp [natReprAux, h10]
      · have hdiv : n / 10 < n := Nat.div_lt_self (by omega) (by decide)
        simp only [natReprAux, h10, if_false]
        rw [ih g (n / 10) (by omega) (by omega)]

theorem natRepr_eq (n : Nat) :
    natRepr n = if n < 10 then [digitChar n] else natRepr (n / 10) ++ [digitChar (n % 10)] := by
  show natReprAux n (n + 1) = _
  by_cases h10 : n < 10
  · simp [natReprAux, h10]
  · have hdiv : n / 10 < n := Nat.div_lt_self (by omega) (by decide)
    simp only [natReprAux, h10, if_false]
    rw [natReprAux_fuel_irrel n (n / 10 + 1) (n / 10) (by omega) (by omega)]
    rfl

theorem isDigitChar_digitChar {n : Nat} (h : n < 10) : isDigitChar (digitChar n) = true := by
  interval_cases n <;> decide

theorem digitVal_digitChar {n : Nat} (h : n < 10) : digitVal (digitChar n) = n := by
  interval_cases n <;> decide

theorem natRepr_ne_nil (n : Nat) : natRepr n ≠ [] := by
  rw [natRepr_eq]
  split <;> simp

theorem natRepr_all_digits (n : Nat) : ∀ c ∈ natRepr n, isDigitChar c = true := by
  induction n using Nat.strong_induction_on with
  | _ n ih =>
    rw [natRepr_eq]
    split
    · next h =>
      intro c hc
      simp only [List.mem_singleton] at hc
      exact hc ▸ isDigitChar_digitChar h
    · next h =>
      intro c hc
      simp only [List.mem_append, List.mem_singleton] at hc
      rcases hc with hc | hc
      · exact ih (n / 10) (Nat.div_lt_self (by omega) (by decide)) c hc
      · exact hc ▸ isDigitChar_digitChar (Nat.mod_lt n (by decide))

theorem natRepr_no_space (n : Nat) : ∀ c ∈ natRepr n, isPySpace c = false := by
  intro c hc
  have hd := natRepr_all_digits n c hc
  by_contra hs
  simp only [Bool.not_eq_false] at hs
  have : c = ' ' ∨ c = '\t' ∨ c = '\n' ∨ c = '\r' ∨ c = '\x0b' ∨ c = '\x0c' := by
    simpa [isPySpace, decide_eq_true_iff, or_assoc] using hs
  rcases this with h | h | h | h | h | h <;> subst h <;> exact absurd hd (by decide)

theorem natRepr_foldl (n : Nat) :
    ∀ a, (natRepr n).foldl (fun a c => 10 * a + digitVal c) a =
      a * 10 ^ (natRepr n).length + n := by
  induction n using Nat.strong_induction_on with
  | _ n ih =>
    intro a
    rw [natRepr_eq]
    split
    · next h =>
      simp [digitVal_digitChar h]
      omega
    · next h =>
      rw [List.foldl_append]
      rw [ih (n / 10) (Nat.div_lt_self (by omega) (by decide))]
      simp only [List.foldl_cons, List.foldl_nil, List.length_append, List.length_singleton]
      rw [digitVal_digitChar (Nat.mod_lt n (by decide))]
      rw [pow_succ]
      have : 10 * (n / 10) + n % 10 = n := Nat.div_add_mod n 10
      ring_nf
      omega

theorem natParse_natRepr (n : Nat) : natParse (natRepr n) = some n := by
  have hne := natRepr_ne_nil n
  have hdig := natRepr_all_digits n
  simp only [natParse, ne_eq, List.all_eq_true]
  rw [if_pos ⟨hne, hdig⟩]
  rw [natRepr_foldl n 0]
  simp

-- ===== Wire message lemmas =====

theorem lm_message_eq (f : Str) (t : Nat) (host : Str) :
    lm_message f t host =
      "Last-Modified".data ++ ' ' :: (f ++ ' ' :: (natRepr t ++ ' ' :: host)) := by
  show "Last-Modified ".data ++ f ++ ' ' :: natRepr t ++ ' ' :: host = _
  have : "Last-Modified ".data = "Last-Modified".data ++ [' '] := rfl
  rw [this]
  simp

theorem pySplit_lm_message (f : Str) (hf : wsFree f = true) (hfne : f ≠ []) (t : Nat)
    (host : Str) :
    pySplit (lm_message f t host) = "Last-Modified".data :: f :: natRepr t :: pySplit host := by
  rw [lm_message_eq, pySplit_space_append,
    pySplit_token "Last-Modified".data (by decide) (by decide),
    pySplit_space_append f _,
    pySplit_token f hfne (fun c hc => wsFree_mem hf hc),
    pySplit_space_append (natRepr t) host,
    pySplit_token (natRepr t) (natRepr_ne_nil t) (natRepr_no_space t)]
  rfl

theorem isPrefixOf_lm_message (f : Str) (t : Nat) (host : Str) :
    List.isPrefixOf "Last-Modified".data (lm_message f t host) = true := by
  rw [List.isPrefixOf_iff_prefix, lm_message_eq]
  exact List.prefix_append _ _

theorem parse_lm_message (f : Str) (hf : wsFree f = true) (hfne : f ≠ []) (t : Nat)
    (n : Str) (hn : wsFree n = true) (hne : n ≠ []) :
    parse_last_modified (lm_message f t n) = some (t, n) := by
  unfold parse_last_modified
  rw [pySplit_lm_message f hf hfne t n,
    pySplit_token n hne (fun c hc => wsFree_mem hn hc)]
  simp [natParse_natRepr]

-- ===== Local claim lemmas =====

theorem validate_ne_nil {f : Str} (h : validate_filename f = true) : f ≠ [] := by
  intro hnil
  subst hnil
  exact absurd h (by decide)

theorem get_timestamp_some_iff {st : FsState} {f : Str} {m : Str} :
    get_timestamp st f = some m ↔
      validate_filename f = true ∧
        ∃ e, lookupFile st.files f = some e ∧ m = lm_message f e.mtime st.host := by
  unfold get_timestamp
  split
  · next hv =>
    cases hl : lookupFile st.files f <;> simp [hv, hl, eq_comm]
  · next hv => simp [hv]

theorem local_ts_eq_zero {st : FsState} {f : Str} (h : get_timestamp st f = none) :
    local_ts st f = 0 := by
  unfold get_timestamp at h
  unfold local_ts
  split
  · next hv =>
    rw [if_pos hv] at h
    cases hl : lookupFile st.files f with
    | none => rfl
    | some e => rw [hl] at h; exact absurd h (by simp)
  · rfl

theorem local_ts_of_entry {st : FsState} {f : Str} {e : FileEntry}
    (hv : validate_filename f = true) (hl : lookupFile st.files f = some e) :
    local_ts st f = e.mtime := by
  unfold local_ts
  rw [if_pos hv, hl]

/-- Under a whitespace-free filename, latest_timestamp never raises: it
runs the peer scan starting from the local timestamp and the local claim
string. -/
theorem latest_timestamp_eq_scan (st : FsState) (f : Str) (peers : List (Option Str))
    (hf : wsFree f = true) :
    latest_timestamp st f peers =
      Except.ok ((peer_scan peers (local_ts st f) (get_timestamp st f) none).2.1,
                 (peer_scan peers (local_ts st f) (get_timestamp st f) none).2.2) := by
  unfold latest_timestamp
  cases hg : get_timestamp st f with
  | none => simp [local_ts_eq_zero hg]
  | some m =>
    obtain ⟨hv, e, hl, hm⟩ := get_timestamp_some_iff.mp hg
    subst hm
    have hsplit := pySplit_lm_message f hf (validate_ne_nil hv) e.mtime st.host
    simp only [hsplit, List.getElem?_cons_succ, List.getElem?_cons_zero,
      natParse_natRepr, local_ts_of_entry hv hl]

-- ===== foldl max utilities =====

theorem le_foldl_max (l : List Nat) : ∀ a : Nat, a ≤ l.foldl max a := by
  induction l with
  | nil => intro a; exact Nat.le_refl a
  | cons c l ih =>
    intro a
    calc a ≤ max a c := Nat.le_max_left a c
    _ ≤ l.foldl max (max a c) := ih (max a c)
    _ = (c :: l).foldl max a := rfl

theorem mem_le_foldl_max {l : List Nat} {x : Nat} (hx : x ∈ l) :
    ∀ a : Nat, x ≤ l.foldl max a := by
  induction l with
  | nil => cases hx
  | cons c l ih =>
    intro a
    rcases List.mem_cons.mp hx with h | h
    · subst h
      calc x ≤ max a x := Nat.le_max_right a x
      _ ≤ l.foldl max (max a x) := le_foldl_max l _
    · exact ih h (max a c)

-- ===== repList reduction =====

theorem repList_cons_adopt {r : Str} {t : Nat} {n : Str} (rest : List (Option Str))
    (hpre : List.isPrefixOf "Last-Modified".data r = true)
    (hp : parse_last_modified r = some (t, n)) :
    repList (some r :: rest) = (t, n, r) :: repList rest := by
  simp [repList, hpre, hp]

theorem repList_cons_skip_parse {r : Str} (rest : List (Option Str))
    (hp : parse_last_modified r = none) :
    repList (some r :: rest) = repList rest := by
  by_cases hpre : List.isPrefixOf "Last-Modified".data r = true
  · simp [repList, hpre, hp]
  · simp [repList, hpre]

theorem repList_cons_skip_pre {r : Str} (rest : List (Option Str))
    (hpre : List.isPrefixOf "Last-Modified".data r = false) :
    repList (some r :: rest) = repList rest := by
  simp [repList, hpre]

theorem tsList_cons_adopt {r : Str} {t : Nat} {n : Str} (rest : List (Option Str))
    (hpre : List.isPrefixOf "Last-Modified".data r = true)
    (hp : parse_last_modified r = some (t, n)) :
    tsList (some r :: rest) = t :: tsList rest := by
  simp [tsList, repList_cons_adopt rest hpre hp]

-- ===== peer scan characterization =====

theorem peer_scan_spec (peers : List (Option Str)) :
    ∀ ts lat nod,
      (peer_scan peers ts lat nod).1 = (tsList peers).foldl max ts ∧
      ((tsList peers).foldl max ts = ts → peer_scan peers ts lat nod = (ts, lat, nod)) ∧
      (ts < (tsList peers).foldl max ts →
        ∃ n r,
          (repList peers).find? (fun x => decide (x.1 = (tsList peers).foldl max ts)) =
              some ((tsList peers).foldl max ts, n, r) ∧
            peer_scan peers ts lat nod = ((tsList peers).foldl max ts, some r, some n)) := by
  induction peers with
  | nil =>
    intro ts lat nod
    refine ⟨rfl, fun _ => rfl, fun h => absurd h (by simp [tsList, repList])⟩
  | cons p rest ih =>
    intro ts lat nod
    cases p with
    | none =>
      have hscan : peer_scan (none :: rest) ts lat nod = peer_scan rest ts lat nod := rfl
      have hrep : repList (none :: rest) = repList rest := rfl
      have hts : tsList (none :: rest) = tsList rest := rfl
      rw [hscan, hts, hrep]
      exact ih ts lat nod
    | some r =>
      by_cases hpre : List.isPrefixOf "Last-Modified".data r = true
      · cases hp : parse_last_modified r with
        | none =>
          have hscan : peer_scan (some r :: rest) ts lat nod = peer_scan rest ts lat nod := by
            simp [peer_scan, hpre, hp]
          have hrep : repList (some r :: rest) = repList rest := repList_cons_skip_parse rest hp
          have hts : tsList (some r :: rest) = tsList rest := by simp [tsList, hrep]
          rw [hscan, hts, hrep]
          exact ih ts lat nod
        | some tn =>
          obtain ⟨t, n⟩ := tn
          have hrep : repList (some r :: rest) = (t, n, r) :: repList rest :=
            repList_cons_adopt rest hpre hp
          have hts : tsList (some r :: rest) = t :: tsList rest :=
            tsList_cons_adopt rest hpre hp
          by_cases hlt : ts < t
          · have hscan : peer_scan (some r :: rest) ts lat nod =
                peer_scan rest t (some r) (some n) := by
              simp [peer_scan, hpre, hp, hlt]
            have hM : (tsList (some r :: rest)).foldl max ts = (tsList rest).foldl max t := by
              rw [hts]
              show (tsList rest).foldl max (max ts t) = _
              rw [Nat.max_eq_right (Nat.le_of_lt hlt)]
            obtain ⟨ih1, ih2, ih3⟩ := ih t (some r) (some n)
            refine ⟨by rw [hscan, hM]; exact ih1, ?_, ?_⟩
            · intro h
              exfalso
              have h1 : t ≤ (tsList rest).foldl max t := le_foldl_max _ _
              rw [hM] at h
              omega
            · intro _
              rw [hM, hrep]
              by_cases heq : (tsList rest).foldl max t = t
              · refine ⟨n, r, ?_, ?_⟩
                · rw [List.find?_cons_of_pos _ (by simp [heq])]
                  rw [heq]
                · rw [hscan, heq, ih2 heq]
              · have hlt2 : t < (tsList rest).foldl max t :=
                  Nat.lt_of_le_of_ne (le_foldl_max _ _) (fun h => heq h.symm)
                obtain ⟨n', r', hfind, hres⟩ := ih3 hlt2
                refine ⟨n', r', ?_, by rw [hscan]; exact hres⟩
                rw [List.find?_cons_of_neg _ (by simp; omega)]
                exact hfind
          · have hscan : peer_scan (some r :: rest) ts lat nod =
                peer_scan rest ts lat nod := by
              simp [peer_scan, hpre, hp, hlt]
            have hM : (tsList (some r :: rest)).foldl max ts = (tsList rest).foldl max ts := by
              rw [hts]
              show (tsList rest).foldl max (max ts t) = _
              rw [Nat.max_eq_left (Nat.le_of_not_lt hlt)]
            obtain ⟨ih1, ih2, ih3⟩ := ih ts lat nod
            refine ⟨by rw [hscan, hM]; exact ih1, ?_, ?_⟩
            · intro h
              rw [hM] at h
              rw [hscan]
              exact ih2 h
            · intro hgt
              rw [hM] at hgt
              obtain ⟨n', r', hfind, hres⟩ := ih3 hgt
              refine ⟨n', r', ?_, by rw [hscan, hM]; exact hres⟩
              rw [hM, hrep]
              rw [List.find?_cons_of_neg _ (by simp; omega)]
              exact hfind
      · have hscan : peer_scan (some r :: rest) ts lat nod = peer_scan rest ts lat nod := by
          simp [peer_scan, hpre]
        have hrep : repList (some r :: rest) = repList rest :=
          repList_cons_skip_pre rest (Bool.eq_false_iff.mpr hpre)
        have hts : tsList (some r :: rest) = tsList rest := by simp [tsList, hrep]
        rw [hscan, hts, hrep]
        exact ih ts lat nod

-- ===== C1: conflict resolution computes the maximum =====

theorem repList_wire (f : Str) (hf : wsFree f = true) (hfne : f ≠ []) :
    ∀ (inputs : List (Option (Nat × Str))),
      (∀ tn ∈ inputs.filterMap id, tn.2 ≠ [] ∧ wsFree tn.2 = true) →
      repList (inputs.map (Option.map (fun tn => lm_message f tn.1 tn.2))) =
        (inputs.filterMap id).map (fun tn => (tn.1, tn.2, lm_message f tn.1 tn.2)) := by
  intro inputs
  induction inputs with
  | nil => intro _; rfl
  | cons p rest ih =>
    intro hn
    cases p with
    | none =>
      have h1 : (none :: rest).map (Option.map (fun tn => lm_message f tn.1 tn.2)) =
          none :: rest.map (Option.map (fun tn => lm_message f tn.1 tn.2)) := rfl
      have h2 : (none :: rest).filterMap (@id (Option (Nat × Str))) = rest.filterMap id := rfl
      rw [h1, h2]
      exact ih (fun tn h => hn tn (by simpa using h))
    | some tn =>
      obtain ⟨t, n⟩ := tn
      obtain ⟨hne, hw⟩ := hn (t, n) (by simp)
      have h1 : (some (t, n) :: rest).map (Option.map (fun tn => lm_message f tn.1 tn.2)) =
          some (lm_message f t n) :: rest.map (Option.map (fun tn => lm_message f tn.1 tn.2)) := rfl
      have h2 : (some (t, n) :: rest).filterMap (@id (Option (Nat × Str))) =
          (t, n) :: rest.filterMap id := rfl
      rw [h1, h2,
        repList_cons_adopt _ (isPrefixOf_lm_message f t n) (parse_lm_message f hf hfne t n hw hne),
        List.map_cons]
      exact congrArg _ (ih (fun tn h => hn tn (by simp [h])))

/-- C1 (corrected): over a whitespace-free filename and well-formed peer
replies about it (whitespace-free, nonempty owner tokens; a none entry
models an unreachable peer), latest_timestamp returns without raising,
the winning owner is none exactly when the local timestamp already
equals the maximum of all timestamps (absence counting as 0, so self
wins every tie), in that case the local claim is returned unmodified,
and any remote winner is a peer whose timestamp equals the maximum,
whose reply is returned as the winning claim.  The original claim is
quantified over every filename; it fails for filenames containing
whitespace, where the code raises instead of resolving (see the
counterexample). -/
theorem latest_timestamp_resolves_max (st : FsState) (f : Str)
    (inputs : List (Option (Nat × Str)))
    (hf : wsFree f = true) (hfne : f ≠ [])
    (hn : ∀ tn ∈ inputs.filterMap id, tn.2 ≠ [] ∧ wsFree tn.2 = true) :
    ∃ lat nod,
      latest_timestamp st f (inputs.map (Option.map (fun tn => lm_message f tn.1 tn.2))) =
          Except.ok (lat, nod) ∧
        (nod = none ↔
          ((inputs.filterMap id).map (fun tn => tn.1)).foldl max (local_ts st f) =
            local_ts st f) ∧
        (nod = none → lat = get_timestamp st f) ∧
        (∀ n, nod = some n →
          ∃ t, (t, n) ∈ inputs.filterMap id ∧
            t = ((inputs.filterMap id).map (fun tn => tn.1)).foldl max (local_ts st f) ∧
            lat = some (lm_message f t n)) := by
  have hrepl := repList_wire f hf hfne inputs hn
  have htsl : tsList (inputs.map (Option.map (fun tn => lm_message f tn.1 tn.2))) =
      (inputs.filterMap id).map (fun tn => tn.1) := by
    rw [tsList, hrepl, List.map_map]
    rfl
  have hscan := latest_timestamp_eq_scan st f
    (inputs.map (Option.map (fun tn => lm_message f tn.1 tn.2))) hf
  obtain ⟨s1, s2, s3⟩ := peer_scan_spec
    (inputs.map (Option.map (fun tn => lm_message f tn.1 tn.2)))
    (local_ts st f) (get_timestamp st f) none
  rw [htsl] at s2 s3
  by_cases hM : ((inputs.filterMap id).map (fun tn => tn.1)).foldl max (local_ts st f) =
      local_ts st f
  · have hstay := s2 hM
    refine ⟨get_timestamp st f, none, ?_, by simp [hM], fun _ => rfl, ?_⟩
    · rw [hscan, hstay]
    · intro n h
      cases h
  · have hTM : local_ts st f <
        ((inputs.filterMap id).map (fun tn => tn.1)).foldl max (local_ts st f) :=
      Nat.lt_of_le_of_ne (le_foldl_max _ _) (fun h => hM h.symm)
    obtain ⟨n, r, hfind, hres⟩ := s3 hTM
    refine ⟨some r, some n, by rw [hscan, hres], by simp [hM], ?_, ?_⟩
    · intro h
      cases h
    intro n' hn'
    have hnn : n' = n := by
      injection hn' with h
      exact h.symm
    rw [hnn]
    have hmem := List.mem_of_find?_eq_some hfind
    rw [hrepl] at hmem
    obtain ⟨tn, htn_mem, htn_eq⟩ := List.mem_map.mp hmem
    obtain ⟨t0, n0⟩ := tn
    have h1 : t0 = ((inputs.filterMap id).map (fun tn => tn.1)).foldl max (local_ts st f) :=
      congrArg (fun x => x.1) htn_eq
    have h2 : n0 = n := congrArg (fun x => x.2.1) htn_eq
    have h3 : lm_message f t0 n0 = r := congrArg (fun x => x.2.2) htn_eq
    refine ⟨t0, ?_, h1, by rw [← h2, h3]⟩
    rw [← h2]
    exact htn_mem

/-- C1 counterexample: the filename consisting of the letter p, a space
and the letter q passes validate_filename, yet with the file present
locally (timestamp 7) and no peers, latest_timestamp raises a ValueError
while parsing its own local claim (float applied to the token q) instead
of returning the maximal claim with timestamp 7 and owner self. -/
theorem latest_timestamp_space_crash :
    latest_timestamp ⟨[("p q".data, ⟨7, []⟩)], "h:1".data⟩ "p q".data [] =
        Except.error () ∧
      validate_filename "p q".data = true := ⟨rfl, rfl⟩

/-- C1 witness at a concrete state and reply list. -/
theorem latest_timestamp_resolves_max_witness :
    ∃ lat nod,
      latest_timestamp ⟨[("data.txt".data, ⟨5, []⟩)], "h:1".data⟩ "data.txt".data
          ([some (9, "p:2".data), none].map
            (Option.map (fun tn => lm_message "data.txt".data tn.1 tn.2))) =
          Except.ok (lat, nod) ∧
        (nod = none ↔
          (([some (9, "p:2".data), none].filterMap id).map (fun tn => tn.1)).foldl max
              (local_ts ⟨[("data.txt".data, ⟨5, []⟩)], "h:1".data⟩ "data.txt".data) =
            local_ts ⟨[("data.txt".data, ⟨5, []⟩)], "h:1".data⟩ "data.txt".data) ∧
        (nod = none →
          lat = get_timestamp ⟨[("data.txt".data, ⟨5, []⟩)], "h:1".data⟩ "data.txt".data) ∧
        (∀ n, nod = some n →
          ∃ t, (t, n) ∈ [some (9, "p:2".data), none].filterMap id ∧
            t = (([some (9, "p:2".data), none].filterMap id).map (fun tn => tn.1)).foldl max
              (local_ts ⟨[("data.txt".data, ⟨5, []⟩)], "h:1".data⟩ "data.txt".data) ∧
            lat = some (lm_message "data.txt".data t n)) :=
  latest_timestamp_resolves_max _ _ _ (by decide) (by decide) (by decide)

-- ===== C5: all peers unreachable =====

theorem peer_scan_all_none :
    ∀ (peers : List (Option Str)) ts lat nod, (∀ p ∈ peers, p = none) →
      peer_scan peers ts lat nod = (ts, lat, nod) := by
  intro peers
  induction peers with
  | nil => intro ts lat nod _; rfl
  | cons p rest ih =>
    intro ts lat nod hall
    have hp := hall p (by simp)
    subst hp
    exact ih ts lat nod (fun q hq => hall q (by simp [hq]))

/-- C5 (corrected): for a whitespace-free filename, when every peer
query raises, latest_timestamp returns exactly the unmodified local
claim: the string produced by get_timestamp (or none when the file is
absent) and owner none.  The original claim covers every filename; a
filename containing whitespace with the file present locally makes
latest_timestamp raise before the peer loop even runs (see the
counterexample). -/
theorem latest_timestamp_all_unreachable (st : FsState) (f : Str)
    (peers : List (Option Str)) (hf : wsFree f = true)
    (hall : ∀ p ∈ peers, p = none) :
    latest_timestamp st f peers = Except.ok (get_timestamp st f, none) := by
  rw [latest_timestamp_eq_scan st f peers hf, peer_scan_all_none peers _ _ _ hall]

/-- C5 counterexample: with the whitespace-containing filename a b
present locally and one unreachable peer, latest_timestamp raises
instead of returning the unmodified local claim, although the local
claim exists. -/
theorem latest_timestamp_all_unreachable_space_crash :
    latest_timestamp ⟨[("a b".data, ⟨5, []⟩)], "h:1".data⟩ "a b".data [none] =
        Except.error () ∧
      get_timestamp ⟨[("a b".data, ⟨5, []⟩)], "h:1".data⟩ "a b".data ≠ none :=
  ⟨rfl, by decide⟩

/-- C5 witness at a concrete state with two unreachable peers. -/
theorem latest_timestamp_all_unreachable_witness :
    latest_timestamp ⟨[("notes.txt".data, ⟨12, []⟩)], "h:1".data⟩ "notes.txt".data
        [none, none] =
      Except.ok
        (get_timestamp ⟨[("notes.txt".data, ⟨12, []⟩)], "h:1".data⟩ "notes.txt".data, none) :=
  latest_timestamp_all_unreachable _ _ _ (by decide) (by decide)

-- ===== C6: iteration order =====

theorem repList_cons (p : Option Str) (l : List (Option Str)) :
    repList (p :: l) = repList [p] ++ repList l := by
  cases p with
  | none => rfl
  | some r =>
    by_cases hpre : List.isPrefixOf "Last-Modified".data r = true
    · cases hp : parse_last_modified r with
      | none => simp [repList, hpre, hp]
      | some tn =>
        obtain ⟨t, n⟩ := tn
        simp [repList, hpre, hp]
    · simp [repList, hpre]

theorem repList_perm {p1 p2 : List (Option Str)} (h : p1.Perm p2) :
    (repList p1).Perm (repList p2) := by
  induction h with
  | nil => exact List.Perm.refl _
  | cons x h ih =>
    rename_i l1 l2
    rw [repList_cons x l1, repList_cons x l2]
    exact ih.append_left _
  | swap x y l =>
    rw [repList_cons y (x :: l), repList_cons x l, repList_cons x (y :: l), repList_cons y l]
    rw [← List.append_assoc, ← List.append_assoc]
    exact (List.perm_append_comm).append_right _
  | trans _ _ ih1 ih2 => exact ih1.trans ih2

theorem find_eq_head_filter {α : Type} (p : α → Bool) (l : List α) :
    l.find? p = (l.filter p).head? := by
  induction l with
  | nil => rfl
  | cons a l ih =>
    by_cases h : p a = true
    · rw [List.find?_cons_of_pos _ h, List.filter_cons_of_pos h]
      rfl
    · rw [List.find?_cons_of_neg _ (by simpa using h),
        List.filter_cons_of_neg (by simpa using h)]
      exact ih

theorem perm_eq_of_length_le_one {α : Type} {l1 l2 : List α} (h : l1.Perm l2)
    (hl : l1.length ≤ 1) : l1 = l2 := by
  cases l1 with
  | nil => exact (List.perm_nil.mp h.symm).symm
  | cons a l =>
    cases l with
    | nil => exact (List.perm_singleton.mp h.symm).symm
    | cons b l => simp at hl

/-- C6 (corrected): for two iteration orders of the same multiset of
peer outcomes (and a whitespace-free filename, so resolution completes),
latest_timestamp agrees on whether a peer won at all, returns the
identical unmodified local claim when self wins, and returns the
identical winning claim and owner whenever at most one adopted reply
attains the maximal timestamp.  The original claim asserts identical
output for every multiset; it fails when two distinct replies tie at
the maximum above the local timestamp, where the first reply in
iteration order wins (see the counterexample). -/
theorem latest_timestamp_perm_spec (st : FsState) (f : Str) (p1 p2 : List (Option Str))
    (hperm : p1.Perm p2) (hf : wsFree f = true) :
    ∃ l1 o1 l2 o2,
      latest_timestamp st f p1 = Except.ok (l1, o1) ∧
      latest_timestamp st f p2 = Except.ok (l2, o2) ∧
      (o1 = none ↔ o2 = none) ∧
      (o1 = none → (l1, o1) = (l2, o2)) ∧
      ((repList p1).countP
          (fun x => decide (x.1 = (tsList p1).foldl max (local_ts st f))) ≤ 1 →
        (l1, o1) = (l2, o2)) := by
  have hrp := repList_perm hperm
  have htp : (tsList p1).Perm (tsList p2) := hrp.map _
  have hM : (tsList p1).foldl max (local_ts st f) =
      (tsList p2).foldl max (local_ts st f) := htp.foldl_eq _
  obtain ⟨a1, b1, c1⟩ := peer_scan_spec p1 (local_ts st f) (get_timestamp st f) none
  obtain ⟨a2, b2, c2⟩ := peer_scan_spec p2 (local_ts st f) (get_timestamp st f) none
  by_cases hMT : (tsList p1).foldl max (local_ts st f) = local_ts st f
  · rw [latest_timestamp_eq_scan st f p1 hf, latest_timestamp_eq_scan st f p2 hf,
      b1 hMT, b2 (by rw [← hM]; exact hMT)]
    exact ⟨get_timestamp st f, none, get_timestamp st f, none, rfl, rfl, Iff.rfl,
      fun _ => rfl, fun _ => rfl⟩
  · have hlt1 : local_ts st f < (tsList p1).foldl max (local_ts st f) :=
      Nat.lt_of_le_of_ne (le_foldl_max _ _) (fun h => hMT h.symm)
    have hlt2 : local_ts st f < (tsList p2).foldl max (local_ts st f) := by
      rw [← hM]; exact hlt1
    obtain ⟨n1, r1, hfind1, hs1⟩ := c1 hlt1
    obtain ⟨n2, r2, hfind2, hs2⟩ := c2 hlt2
    rw [latest_timestamp_eq_scan st f p1 hf, latest_timestamp_eq_scan st f p2 hf, hs1, hs2]
    refine ⟨some r1, some n1, some r2, some n2, rfl, rfl, by simp, ?_, ?_⟩
    · intro h
      cases h
    · intro hcount
      rw [← hM] at hfind2
      have e1 := find_eq_head_filter
        (fun x : Nat × Str × Str =>
          decide (x.1 = (tsList p1).foldl max (local_ts st f))) (repList p1)
      have e2 := find_eq_head_filter
        (fun x : Nat × Str × Str =>
          decide (x.1 = (tsList p1).foldl max (local_ts st f))) (repList p2)
      have hfil : ((repList p1).filter
            (fun x => decide (x.1 = (tsList p1).foldl max (local_ts st f)))) =
          ((repList p2).filter
            (fun x => decide (x.1 = (tsList p1).foldl max (local_ts st f)))) := by
        refine perm_eq_of_length_le_one (hrp.filter _) ?_
        rw [← List.countP_eq_length_filter]
        exact hcount
      rw [e1, hfil, ← e2, hfind2] at hfind1
      injection hfind1 with htup
      have hn : n2 = n1 := congrArg (fun y => y.2.1) htup
      have hr : r2 = r1 := congrArg (fun y => y.2.2) htup
      rw [hn, hr]

/-- C6 counterexample: two permutations of the same multiset of two
well-formed replies, both with timestamp 10 but distinct owners, yield
different winning owners and claims: the first reply in iteration order
wins the tie, so the output is not a function of the multiset of peer
states alone. -/
theorem latest_timestamp_perm_counterexample :
    [some "Last-Modified x 10 A:1".data, some "Last-Modified x 10 B:1".data].Perm
        [some "Last-Modified x 10 B:1".data, some "Last-Modified x 10 A:1".data] ∧
      latest_timestamp ⟨[], "h:1".data⟩ "x".data
          [some "Last-Modified x 10 A:1".data, some "Last-Modified x 10 B:1".data] =
        Except.ok (some "Last-Modified x 10 A:1".data, some "A:1".data) ∧
      latest_timestamp ⟨[], "h:1".data⟩ "x".data
          [some "Last-Modified x 10 B:1".data, some "Last-Modified x 10 A:1".data] =
        Except.ok (some "Last-Modified x 10 B:1".data, some "B:1".data) :=
  ⟨List.Perm.swap _ _ _, rfl, rfl⟩

/-- C6 witness at two concrete permutations of one reachable and one
unreachable peer. -/
theorem latest_timestamp_perm_spec_witness :
    ∃ l1 o1 l2 o2,
      latest_timestamp ⟨[], "h:1".data⟩ "z".data
          [some "Last-Modified z 9 C:1".data, none] = Except.ok (l1, o1) ∧
      latest_timestamp ⟨[], "h:1".data⟩ "z".data
          [none, some "Last-Modified z 9 C:1".data] = Except.ok (l2, o2) ∧
      (o1 = none ↔ o2 = none) ∧
      (o1 = none → (l1, o1) = (l2, o2)) ∧
      ((repList [some "Last-Modified z 9 C:1".data, none]).countP
          (fun x => decide (x.1 =
            (tsList [some "Last-Modified z 9 C:1".data, none]).foldl max
              (local_ts ⟨[], "h:1".data⟩ "z".data))) ≤ 1 →
        (l1, o1) = (l2, o2)) :=
  latest_timestamp_perm_spec _ _ _ _ (by decide) (by decide)

-- ===== C7: only the final fetch is fatal =====

theorem get_file_eq_after (st : FsState) (f : Str) (peers : List (Option Str))
    (fetch : Str → Nat → Option (List Nat)) (now : Nat)
    (hv : validate_filename f = true) (hf : wsFree f = true) :
    get_file st f peers fetch now =
      get_file_after st f fetch now
        (peer_scan peers (local_ts st f) (get_timestamp st f) none).2.1
        (peer_scan peers (local_ts st f) (get_timestamp st f) none).2.2 := by
  unfold get_file
  rw [if_neg (by simp [hv]), latest_timestamp_eq_scan st f peers hf]

theorem get_file_after_error_iff (st : FsState) (f : Str)
    (fetch : Str → Nat → Option (List Nat)) (now : Nat) (lat nod : Option Str)
    (hlink : nod.isSome = true → lat.isSome = true) :
    ((get_file_after st f fetch now lat nod = GetFileResult.fetchError ∨
        get_file_after st f fetch now lat nod = GetFileResult.crash) ↔
      ∃ n, nod = some n ∧ n ≠ st.host ∧ fetch_phase n fetch = none) := by
  cases nod with
  | none =>
    unfold get_file_after
    constructor
    · intro hc
      split at hc <;> simp_all
    · rintro ⟨n, hn, _⟩
      cases hn
  | some n =>
    have hlat : lat.isSome = true := hlink rfl
    have hcond : (lat.isNone && (lookupFile st.files f).isNone) = false := by
      cases lat with
      | none => simp at hlat
      | some r => simp
    unfold get_file_after
    rw [hcond]
    simp only [Bool.false_eq_true, if_false]
    by_cases hh : n = st.host
    · rw [if_neg (by simp [hh])]
      constructor
      · intro hc
        rcases hc with hc | hc <;> cases hc
      · rintro ⟨n', hn', hne, _⟩
        injection hn' with he
        exact absurd (he ▸ hh) hne
    · rw [if_pos (by simpa using hh)]
      cases hsp : splitChar ':' n with
      | nil => simp [fetch_phase, hsp, hh]
      | cons a tail =>
        cases tail with
        | nil => simp [fetch_phase, hsp, hh]
        | cons b tail2 =>
          cases tail2 with
          | nil =>
            cases hport : natParse b with
            | none => simp [fetch_phase, hsp, hport, hh]
            | some pn =>
              cases hfetch : fetch a pn with
              | none => simp [fetch_phase, hsp, hport, hfetch, hh]
              | some d => simp [fetch_phase, hsp, hport, hfetch, hh]
          | cons c tail3 => simp [fetch_phase, hsp, hh]

/-- C7 (amended restriction of the corrected claim): for every valid,
whitespace-free filename, resolution completes whatever the peer
outcomes are (peer errors never abort the read), and the read produces
an error result, fetchError or crash, exactly when a remote owner won
the resolution and the addressing-and-fetch phase against that owner
fails; in every other case the read serves a local file or returns 404.
In particular a failing byte fetch from a winning remote owner always
yields an error, never a silent fallback to the stale local copy.  The
original claim covers every valid filename; a valid filename containing
whitespace hard-fails the read with no fetch involved (see the
counterexample). -/
theorem get_file_fetch_only_failure (st : FsState) (f : Str) (peers : List (Option Str))
    (fetch : Str → Nat → Option (List Nat)) (now : Nat)
    (hv : validate_filename f = true) (hf : wsFree f = true) :
    ∃ lat nod,
      latest_timestamp st f peers = Except.ok (lat, nod) ∧
        ((get_file st f peers fetch now = GetFileResult.fetchError ∨
            get_file st f peers fetch now = GetFileResult.crash) ↔
          ∃ n, nod = some n ∧ n ≠ st.host ∧ fetch_phase n fetch = none) := by
  obtain ⟨s1, s2, s3⟩ := peer_scan_spec peers (local_ts st f) (get_timestamp st f) none
  refine ⟨(peer_scan peers (local_ts st f) (get_timestamp st f) none).2.1,
    (peer_scan peers (local_ts st f) (get_timestamp st f) none).2.2,
    latest_timestamp_eq_scan st f peers hf, ?_⟩
  rw [get_file_eq_after st f peers fetch now hv hf]
  apply get_file_after_error_iff
  by_cases hMT : (tsList peers).foldl max (local_ts st f) = local_ts st f
  · rw [s2 hMT]
    intro h
    cases h
  · have hlt : local_ts st f < (tsList peers).foldl max (local_ts st f) :=
      Nat.lt_of_le_of_ne (le_foldl_max _ _) (fun h => hMT h.symm)
    obtain ⟨n, r, _, hres⟩ := s3 hlt
    rw [hres]
    intro _
    rfl

/-- C7 counterexample: the valid filename m n (containing a space) with
the file present locally and no peers at all makes the read hard-fail
with an uncaught ValueError (crash, surfaced as HTTP 500) although no
remote owner exists and no fetch was attempted, so the final fetch is
not the only hard failure of a read. -/
theorem get_file_space_crash :
    get_file ⟨[("m n".data, ⟨3, []⟩)], "h:1".data⟩ "m n".data [] (fun _ _ => none) 0 =
        GetFileResult.crash ∧
      validate_filename "m n".data = true := ⟨rfl, rfl⟩

/-- C7 witness: a remote owner wins and every fetch raises, so the read
errors rather than serving stale data. -/
theorem get_file_fetch_only_failure_witness :
    ∃ lat nod,
      latest_timestamp ⟨[], "h:1".data⟩ "w".data
          [some "Last-Modified w 10 p:2".data] = Except.ok (lat, nod) ∧
        ((get_file ⟨[], "h:1".data⟩ "w".data [some "Last-Modified w 10 p:2".data]
              (fun _ _ => none) 0 = GetFileResult.fetchError ∨
            get_file ⟨[], "h:1".data⟩ "w".data [some "Last-Modified w 10 p:2".data]
              (fun _ _ => none) 0 = GetFileResult.crash) ↔
          ∃ n, nod = some n ∧ n ≠ FsState.host ⟨[], "h:1".data⟩ ∧
            fetch_phase n (fun _ _ => none) = none) :=
  get_file_fetch_only_failure _ _ _ _ _ (by decide) (by decide)

-- ===== Discovery registry lemmas =====

theorem lookupN_mem {reg : Registry} {a : DAddr} {r : NodeRec}
    (h : lookupN reg a = some r) : (a, r) ∈ reg := by
  induction reg with
  | nil => cases h
  | cons p rest ih =>
    obtain ⟨b, s⟩ := p
    by_cases hb : b = a
    · subst hb
      rw [lookupN, if_pos rfl] at h
      injection h with he
      subst he
      simp
    · rw [lookupN, if_neg hb] at h
      exact List.mem_cons_of_mem _ (ih h)

theorem lookupN_eq_none_iff {reg : Registry} {a : DAddr} :
    lookupN reg a = none ↔ a ∉ reg.map (fun p => p.1) := by
  induction reg with
  | nil =>
    constructor
    · intro _ hc
      cases hc
    · intro _
      rfl
  | cons p rest ih =>
    obtain ⟨b, s⟩ := p
    rw [List.map_cons, List.mem_cons]
    by_cases hb : b = a
    · subst hb
      rw [lookupN, if_pos rfl]
      constructor
      · intro hc
        cases hc
      · intro hc
        exact absurd (Or.inl rfl) hc
    · rw [lookupN, if_neg hb, ih]
      constructor
      · intro h hc
        rcases hc with hc | hc
        · exact hb hc.symm
        · exact h hc
      · intro h hc
        exact h (Or.inr hc)

theorem pushed_pass_subset {reg : Registry} {ok : DAddr → Bool} {a : DAddr}
    (h : a ∈ pushed_set (update_nodes_pass reg ok)) : a ∈ pushed_set reg := by
  unfold pushed_set at h ⊢
  unfold update_nodes_pass at h
  have hsub : (((reg.map (fun p =>
      (p.1, if ok p.1 then { p.2 with missed_updates := 0 }
            else { p.2 with missed_updates := p.2.missed_updates + 1 }))).filter
      (fun p => decide (p.2.missed_updates < NODE_TIMEOUT))).map (fun p => p.1)).Sublist
      ((reg.map (fun p =>
        (p.1, if ok p.1 then { p.2 with missed_updates := 0 }
              else { p.2 with missed_updates := p.2.missed_updates + 1 }))).map (fun p => p.1)) :=
    (List.filter_sublist _).map _
  have hmem := hsub.subset h
  rw [List.map_map] at hmem
  exact hmem

theorem nodup_pass {reg : Registry} {ok : DAddr → Bool}
    (h : (reg.map (fun p => p.1)).Nodup) :
    ((update_nodes_pass reg ok).map (fun p => p.1)).Nodup := by
  unfold update_nodes_pass
  have hsub : (((reg.map (fun p =>
      (p.1, if ok p.1 then { p.2 with missed_updates := 0 }
            else { p.2 with missed_updates := p.2.missed_updates + 1 }))).filter
      (fun p => decide (p.2.missed_updates < NODE_TIMEOUT))).map (fun p => p.1)).Sublist
      ((reg.map (fun p =>
        (p.1, if ok p.1 then { p.2 with missed_updates := 0 }
              else { p.2 with missed_updates := p.2.missed_updates + 1 }))).map (fun p => p.1)) :=
    (List.filter_sublist _).map _
  rw [List.map_map] at hsub
  exact hsub.nodup h

theorem update_nodes_pass_cons_ok {b : DAddr} {s : NodeRec} {rest : Registry}
    {ok : DAddr → Bool} (hok : ok b = true) :
    update_nodes_pass ((b, s) :: rest) ok =
      (b, ⟨s.last_seen, 0⟩) :: update_nodes_pass rest ok := by
  unfold update_nodes_pass
  rw [List.map_cons, List.filter_cons]
  simp only [hok, if_true]
  rw [if_pos (by decide)]

theorem update_nodes_pass_cons_fail_keep {b : DAddr} {s : NodeRec} {rest : Registry}
    {ok : DAddr → Bool} (hok : ok b = false)
    (hlt : s.missed_updates + 1 < NODE_TIMEOUT) :
    update_nodes_pass ((b, s) :: rest) ok =
      (b, ⟨s.last_seen, s.missed_updates + 1⟩) :: update_nodes_pass rest ok := by
  unfold update_nodes_pass
  rw [List.map_cons, List.filter_cons]
  simp only [hok, Bool.false_eq_true, if_false]
  rw [if_pos (by simpa using hlt)]

theorem update_nodes_pass_cons_fail_drop {b : DAddr} {s : NodeRec} {rest : Registry}
    {ok : DAddr → Bool} (hok : ok b = false)
    (hlt : ¬ s.missed_updates + 1 < NODE_TIMEOUT) :
    update_nodes_pass ((b, s) :: rest) ok = update_nodes_pass rest ok := by
  unfold update_nodes_pass
  rw [List.map_cons, List.filter_cons]
  simp only [hok, Bool.false_eq_true, if_false]
  rw [if_neg (by simpa using hlt)]

theorem lookupN_pass_fail {reg : Registry} {a : DAddr} {r : NodeRec} {ok : DAddr → Bool}
    (hnd : (reg.map (fun p => p.1)).Nodup)
    (hr : lookupN reg a = some r) (hok : ok a = false) :
    lookupN (update_nodes_pass reg ok) a =
      if r.missed_updates + 1 < NODE_TIMEOUT then
        some ⟨r.last_seen, r.missed_updates + 1⟩
      else none := by
  induction reg with
  | nil => cases hr
  | cons p rest ih =>
    obtain ⟨b, s⟩ := p
    have hnd_head : b ∉ rest.map (fun p => p.1) := by
      simp only [List.map_cons, List.nodup_cons] at hnd
      exact hnd.1
    have hnd' : (rest.map (fun p => p.1)).Nodup := by
      simp only [List.map_cons, List.nodup_cons] at hnd
      exact hnd.2
    by_cases hb : b = a
    · subst hb
      rw [lookupN, if_pos rfl] at hr
      injection hr with he
      have hrest_none : lookupN (update_nodes_pass rest ok) b = none :=
        lookupN_eq_none_iff.mpr (fun hc => hnd_head (pushed_pass_subset hc))
      by_cases hlt : s.missed_updates + 1 < NODE_TIMEOUT
      · rw [update_nodes_pass_cons_fail_keep hok hlt, lookupN, if_pos rfl, he,
          if_pos (he ▸ hlt)]
      · rw [update_nodes_pass_cons_fail_drop hok hlt, hrest_none,
          if_neg (he ▸ hlt)]
    · have htail : lookupN rest a = some r := by
        rw [lookupN, if_neg hb] at hr
        exact hr
      rw [← ih hnd' htail]
      cases hokb : ok b with
      | true =>
        rw [update_nodes_pass_cons_ok hokb, lookupN, if_neg hb]
      | false =>
        by_cases hlt : s.missed_updates + 1 < NODE_TIMEOUT
        · rw [update_nodes_pass_cons_fail_keep hokb hlt, lookupN, if_neg hb]
        · rw [update_nodes_pass_cons_fail_drop hokb hlt]

theorem pass_invariant {reg : Registry} {ok : DAddr → Bool} {b : DAddr} {s : NodeRec}
    (h : lookupN (update_nodes_pass reg ok) b = some s) :
    s.missed_updates < NODE_TIMEOUT := by
  have hmem := lookupN_mem h
  unfold update_nodes_pass at hmem
  have := (List.mem_filter.mp hmem).2
  simpa using this

theorem not_pushed_forever {a : DAddr} :
    ∀ (oks : List (DAddr → Bool)) (reg : Registry), a ∉ pushed_set reg →
      a ∉ pushed_set (oks.foldl update_nodes_pass reg) := by
  intro oks
  induction oks with
  | nil => intro reg h; exact h
  | cons ok rest ih =>
    intro reg h
    exact ih (update_nodes_pass reg ok) (fun hc => h (pushed_pass_subset hc))

-- ===== C3: three missed pushes evict =====

/-- C3 (confirmed): in a registry with distinct keys, a registered node
with missed counter 0 whose push fails in three consecutive update
passes is still pushed to in each of those three passes, is deleted from
the registry in the very pass in which its counter reaches the
threshold, is not pushed to in any later pass, and after every completed
pass every remaining entry has missed_updates strictly below
NODE_TIMEOUT. -/
theorem update_nodes_eviction (reg : Registry) (a : DAddr) (r : NodeRec)
    (ok1 ok2 ok3 : DAddr → Bool)
    (hnd : (reg.map (fun p => p.1)).Nodup)
    (hr : lookupN reg a = some r) (hm : r.missed_updates = 0)
    (h1 : ok1 a = false) (h2 : ok2 a = false) (h3 : ok3 a = false) :
    a ∈ pushed_set reg ∧
    a ∈ pushed_set (update_nodes_pass reg ok1) ∧
    a ∈ pushed_set (update_nodes_pass (update_nodes_pass reg ok1) ok2) ∧
    lookupN (update_nodes_pass (update_nodes_pass (update_nodes_pass reg ok1) ok2) ok3) a =
      none ∧
    (∀ oks : List (DAddr → Bool),
      a ∉ pushed_set (oks.foldl update_nodes_pass
        (update_nodes_pass (update_nodes_pass (update_nodes_pass reg ok1) ok2) ok3))) ∧
    (∀ (reg' : Registry) (ok : DAddr → Bool) (b : DAddr) (s : NodeRec),
      lookupN (update_nodes_pass reg' ok) b = some s → s.missed_updates < NODE_TIMEOUT) := by
  have hk0 : a ∈ pushed_set reg := by
    unfold pushed_set
    exact List.mem_map.mpr ⟨(a, r), lookupN_mem hr, rfl⟩
  have hnd1 := @nodup_pass reg ok1 hnd
  have hl1 : lookupN (update_nodes_pass reg ok1) a = some ⟨r.last_seen, 1⟩ := by
    rw [lookupN_pass_fail hnd hr h1, hm]
    rfl
  have hk1 : a ∈ pushed_set (update_nodes_pass reg ok1) := by
    unfold pushed_set
    exact List.mem_map.mpr ⟨(a, ⟨r.last_seen, 1⟩), lookupN_mem hl1, rfl⟩
  have hnd2 := @nodup_pass (update_nodes_pass reg ok1) ok2 hnd1
  have hl2 : lookupN (update_nodes_pass (update_nodes_pass reg ok1) ok2) a =
      some ⟨r.last_seen, 2⟩ := by
    rw [lookupN_pass_fail hnd1 hl1 h2]
    rfl
  have hk2 : a ∈ pushed_set (update_nodes_pass (update_nodes_pass reg ok1) ok2) := by
    unfold pushed_set
    exact List.mem_map.mpr ⟨(a, ⟨r.last_seen, 2⟩), lookupN_mem hl2, rfl⟩
  have hl3 : lookupN (update_nodes_pass (update_nodes_pass (update_nodes_pass reg ok1) ok2)
      ok3) a = none := by
    rw [lookupN_pass_fail hnd2 hl2 h3]
    rfl
  refine ⟨hk0, hk1, hk2, hl3, ?_, fun _ _ _ _ h => pass_invariant h⟩
  intro oks
  exact not_pushed_forever oks _ (lookupN_eq_none_iff.mp hl3)

/-- C3 witness: a single registered node failing three consecutive
passes. -/
theorem update_nodes_eviction_witness :
    ("10.0.0.5".data, "6001".data) ∈
        pushed_set [(("10.0.0.5".data, "6001".data), ⟨100, 0⟩)] ∧
      ("10.0.0.5".data, "6001".data) ∈
        pushed_set (update_nodes_pass [(("10.0.0.5".data, "6001".data), ⟨100, 0⟩)]
          (fun _ => false)) ∧
      ("10.0.0.5".data, "6001".data) ∈
        pushed_set (update_nodes_pass (update_nodes_pass
          [(("10.0.0.5".data, "6001".data), ⟨100, 0⟩)] (fun _ => false)) (fun _ => false)) ∧
      lookupN (update_nodes_pass (update_nodes_pass (update_nodes_pass
          [(("10.0.0.5".data, "6001".data), ⟨100, 0⟩)] (fun _ => false)) (fun _ => false))
          (fun _ => false)) ("10.0.0.5".data, "6001".data) = none ∧
      (∀ oks : List (DAddr → Bool),
        ("10.0.0.5".data, "6001".data) ∉ pushed_set (oks.foldl update_nodes_pass
          (update_nodes_pass (update_nodes_pass (update_nodes_pass
            [(("10.0.0.5".data, "6001".data), ⟨100, 0⟩)] (fun _ => false)) (fun _ => false))
            (fun _ => false)))) ∧
      (∀ (reg' : Registry) (ok : DAddr → Bool) (b : DAddr) (s : NodeRec),
        lookupN (update_nodes_pass reg' ok) b = some s → s.missed_updates < NODE_TIMEOUT) :=
  update_nodes_eviction [(("10.0.0.5".data, "6001".data), ⟨100, 0⟩)]
    ("10.0.0.5".data, "6001".data) ⟨100, 0⟩ (fun _ => false) (fun _ => false) (fun _ => false)
    (by decide) (by decide) rfl rfl rfl rfl

-- ===== C8: registration is idempotent =====

theorem lookupN_append_self {reg : Registry} {a : DAddr} (rec : NodeRec)
    (h : lookupN reg a = none) : lookupN (reg ++ [(a, rec)]) a = some rec := by
  induction reg with
  | nil => simp [lookupN]
  | cons p rest ih =>
    obtain ⟨b, s⟩ := p
    by_cases hb : b = a
    · subst hb
      rw [lookupN, if_pos rfl] at h
      cases h
    · rw [lookupN, if_neg hb] at h
      rw [List.cons_append, lookupN, if_neg hb]
      exact ih h

theorem register_node_keys (reg : Registry) (a : DAddr) (now : Nat) :
    ∀ b, b ∈ (register_node reg a now).1.map (fun p => p.1) ↔
      (b ∈ reg.map (fun p => p.1) ∨ b = a) := by
  intro b
  cases hl : lookupN reg a with
  | some r0 =>
    have e1 : (register_node reg a now).1 = reg := by
      unfold register_node
      rw [hl]
    rw [e1]
    constructor
    · intro h
      exact Or.inl h
    · intro h
      rcases h with h | h
      · exact h
      · subst h
        exact List.mem_map.mpr ⟨(b, r0), lookupN_mem hl, rfl⟩
  | none =>
    have e1 : (register_node reg a now).1 = reg ++ [(a, ⟨now, 0⟩)] := by
      unfold register_node
      rw [hl]
    rw [e1, List.map_append, List.mem_append]
    constructor
    · intro h
      rcases h with h | h
      · exact Or.inl h
      · right
        simpa using h
    · intro h
      rcases h with h | h
      · exact Or.inl h
      · right
        simpa using h

/-- C8 (confirmed): registering an already present address leaves the
registry, and in particular its record (missed counter and last_seen),
unchanged; registering an absent address appends it with missed_updates
0 and last_seen now; in both cases the reply is the rendered listing of
all addresses of the resulting registry, whose key set is the old key
set plus the joiner. -/
theorem register_node_spec (reg : Registry) (a : DAddr) (now : Nat) :
    (∀ r, lookupN reg a = some r →
      (register_node reg a now).1 = reg ∧
        lookupN (register_node reg a now).1 a = some r) ∧
    (lookupN reg a = none →
      (register_node reg a now).1 = reg ++ [(a, ⟨now, 0⟩)] ∧
        lookupN (register_node reg a now).1 a = some ⟨now, 0⟩) ∧
    (∀ b, b ∈ (register_node reg a now).1.map (fun p => p.1) ↔
      (b ∈ reg.map (fun p => p.1) ∨ b = a)) ∧
    (register_node reg a now).2 =
      listing_message ((register_node reg a now).1.map (fun p => p.1)) := by
  refine ⟨?_, ?_, ?_, rfl⟩
  · intro r hr
    have e1 : (register_node reg a now).1 = reg := by
      unfold register_node
      rw [hr]
    exact ⟨e1, by rw [e1]; exact hr⟩
  · intro hl
    have e1 : (register_node reg a now).1 = reg ++ [(a, ⟨now, 0⟩)] := by
      unfold register_node
      rw [hl]
    exact ⟨e1, by rw [e1]; exact lookupN_append_self _ hl⟩
  · exact register_node_keys reg a now

/-- C8 witness: registering a fresh address into the empty registry. -/
theorem register_node_spec_witness :
    lookupN ([] : Registry) ("10.0.0.7".data, "6100".data) = none ∧
      ((register_node [] ("10.0.0.7".data, "6100".data) 42).1 =
        [] ++ [(("10.0.0.7".data, "6100".data), ⟨42, 0⟩)] ∧
      lookupN (register_node [] ("10.0.0.7".data, "6100".data) 42).1
        ("10.0.0.7".data, "6100".data) = some ⟨42, 0⟩) :=
  ⟨rfl, (register_node_spec [] ("10.0.0.7".data, "6100".data) 42).2.1 rfl⟩

-- ===== C2: validation at every boundary =====

/-- C2 (code bug): the File-Provision-Request boundary hands the
filename straight to os.path.join with the STORAGE directory, with no
validate_filename call: the traversal name ../../etc/passwd reaches the
filesystem probe there, while the same name at the timestamp-query
boundary is validated first and never touches the filesystem.  This
contradicts the intended invariant that filename validation is enforced
identically before any file access at every boundary. -/
theorem file_provision_skips_validation :
    (handle_socket_request ⟨[], "h:1".data⟩
        "File-Provision-Request ../../etc/passwd".data).2 =
      ["../../etc/passwd".data] ∧
    validate_filename "../../etc/passwd".data = false ∧
    (handle_socket_request ⟨[], "h:1".data⟩
        "Last-Modified-Check ../../etc/passwd".data).2 = [] :=
  ⟨rfl, rfl, rfl⟩

-- ===== C10: unknown requests are answered with silence =====

theorem lm_message_ne_sentinel (f : Str) (t : Nat) (host : Str) :
    lm_message f t host ≠ error_sentinel := by
  intro h
  have h2 := congrArg List.head? h
  have e1 : (lm_message f t host).head? = some 'L' := rfl
  have e2 : error_sentinel.head? = some 'E' := rfl
  rw [e1, e2] at h2
  injection h2 with h3
  cases h3

/-- C10 (confirmed): a request that does not begin with any of the three
command tokens and raises nothing is answered with no bytes at all; and
the generic error sentinel is produced only when a handler raises, which
in the dispatcher happens exactly when a Last-Modified-Check or
File-Provision-Request line has no second token (the IndexError caught
by the except clause). -/
theorem unknown_request_silent (st : FsState) (data : Str)
    (hn1 : List.isPrefixOf "Last-Modified-Check".data data = false)
    (hn2 : List.isPrefixOf "File-Provision-Request".data data = false)
    (hn3 : List.isPrefixOf "Index-Listing-Request".data data = false) :
    handle_socket_request st data = (SockReply.silent, []) ∧
    (∀ (st' : FsState) (d' : Str),
      (handle_socket_request st' d').1 = SockReply.text error_sentinel →
      ((List.isPrefixOf "Last-Modified-Check".data d' = true ∨
          List.isPrefixOf "File-Provision-Request".data d' = true) ∧
        (pySplit d')[1]? = none)) := by
  constructor
  · unfold handle_socket_request
    rw [if_neg (by simp [hn1]), if_neg (by simp [hn2]), if_neg (by simp [hn3])]
  · intro st' d' h
    unfold handle_socket_request at h
    by_cases p1 : List.isPrefixOf "Last-Modified-Check".data d' = true
    · rw [if_pos p1] at h
      refine ⟨Or.inl p1, ?_⟩
      cases ht : (pySplit d')[1]? with
      | none => rfl
      | some f =>
        exfalso
        rw [ht] at h
        have h2 : (match get_timestamp st' f with
            | some r => SockReply.text r
            | none => SockReply.text "File not found".data) =
            SockReply.text error_sentinel := h
        cases hg : get_timestamp st' f with
        | some m =>
          rw [hg] at h2
          injection h2 with hm
          obtain ⟨_, e, _, hme⟩ := get_timestamp_some_iff.mp hg
          exact lm_message_ne_sentinel f e.mtime st'.host (hme ▸ hm)
        | none =>
          rw [hg] at h2
          injection h2 with hm
          exact absurd hm (by decide)
    · rw [if_neg p1] at h
      by_cases p2 : List.isPrefixOf "File-Provision-Request".data d' = true
      · rw [if_pos p2] at h
        refine ⟨Or.inr p2, ?_⟩
        cases ht : (pySplit d')[1]? with
        | none => rfl
        | some f =>
          exfalso
          rw [ht] at h
          have h2 : (match lookupFile st'.files f with
              | some e => SockReply.raw e.content
              | none => SockReply.text "File not found".data) =
              SockReply.text error_sentinel := h
          cases hg : lookupFile st'.files f with
          | some e =>
            rw [hg] at h2
            injection h2
          | none =>
            rw [hg] at h2
            injection h2 with hm
            exact absurd hm (by decide)
      · rw [if_neg p2] at h
        by_cases p3 : List.isPrefixOf "Index-Listing-Request".data d' = true
        · rw [if_pos p3] at h
          exfalso
          have h2 : SockReply.text ("Index-Listing".data ++ '\n' ::
              joinNL (st'.files.map (fun p => p.1)) ++ ['\n']) =
              SockReply.text error_sentinel := h
          injection h2 with hm
          have h3 := congrArg List.head? hm
          have e1 : ("Index-Listing".data ++ '\n' ::
              joinNL (st'.files.map (fun p => p.1)) ++ ['\n']).head? = some 'I' := rfl
          have e2 : error_sentinel.head? = some 'E' := rfl
          rw [e1, e2] at h3
          injection h3 with h4
          cases h4
        · rw [if_neg p3] at h
          have h2 : SockReply.silent = SockReply.text error_sentinel := h
          injection h2

/-- C10 witness: a join message arriving at the peer dispatcher matches
no command and is answered with silence. -/
theorem unknown_request_silent_witness :
    handle_socket_request ⟨[], "h:1".data⟩ "Join-Discovery-Service 1.2.3.4:6001".data =
        (SockReply.silent, []) ∧
      (∀ (st' : FsState) (d' : Str),
        (handle_socket_request st' d').1 = SockReply.text error_sentinel →
        ((List.isPrefixOf "Last-Modified-Check".data d' = true ∨
            List.isPrefixOf "File-Provision-Request".data d' = true) ∧
          (pySplit d')[1]? = none)) :=
  unknown_request_silent ⟨[], "h:1".data⟩ "Join-Discovery-Service 1.2.3.4:6001".data
    (by decide) (by decide) (by decide)

-- ===== Strip and line split lemmas (for C9) =====

theorem not_mem_of_wsFree {s : Str} (h : wsFree s = true) {c : Char}
    (hc : isPySpace c = true) : c ∉ s := by
  intro hm
  rw [wsFree_mem h hm] at hc
  cases hc

theorem dropWhile_eq_self_of_head (s : Str)
    (h : ∀ c, s.head? = some c → isPySpace c = false) :
    s.dropWhile isPySpace = s := by
  cases s with
  | nil => rfl
  | cons c t =>
    rw [List.dropWhile_cons_of_neg]
    simp [h c rfl]

theorem pyStrip_eq_self (s : Str)
    (h1 : s.dropWhile isPySpace = s)
    (h2 : s.reverse.dropWhile isPySpace = s.reverse) : pyStrip s = s := by
  unfold pyStrip
  rw [h1, h2, List.reverse_reverse]

theorem pyStrip_append_newline (s : Str) : pyStrip (s ++ ['\n']) = pyStrip s := by
  unfold pyStrip
  rw [List.dropWhile_append]
  by_cases he : (s.dropWhile isPySpace).isEmpty = true
  · rw [if_pos he]
    rw [List.isEmpty_iff] at he
    rw [he]
    rfl
  · rw [if_neg (by simpa using he)]
    rw [List.reverse_append]
    have : (['\n'] : Str).reverse = ['\n'] := rfl
    rw [this, List.singleton_append, List.dropWhile_cons_of_pos (by decide)]

theorem splitChar_not_mem {sep : Char} {x : Str} (h : sep ∉ x) :
    splitChar sep x = [x] := by
  induction x with
  | nil => rfl
  | cons c rest ih =>
    have hc : ¬ c = sep := fun hcc => h (by simp [hcc])
    rw [splitChar, if_neg hc, ih (fun hm => h (List.mem_cons_of_mem _ hm))]

theorem splitChar_append {sep : Char} (x y : Str) (h : sep ∉ x) :
    splitChar sep (x ++ sep :: y) = x :: splitChar sep y := by
  induction x with
  | nil =>
    rw [List.nil_append, splitChar, if_pos rfl]
  | cons c x' ih =>
    have hc : ¬ c = sep := fun hcc => h (by simp [hcc])
    rw [List.cons_append, splitChar, if_neg hc,
      ih (fun hm => h (List.mem_cons_of_mem _ hm))]

theorem joinNL_cons_cons (l l2 : Str) (r2 : List Str) :
    joinNL (l :: l2 :: r2) = l ++ '\n' :: joinNL (l2 :: r2) := rfl

theorem joinNL_ne_nil {l : Str} {rest : List Str} (h : l ≠ []) :
    joinNL (l :: rest) ≠ [] := by
  cases rest with
  | nil => exact h
  | cons l2 r2 =>
    rw [joinNL_cons_cons]
    simp [h]

theorem splitChar_joinNL (lines : List Str) (hne : lines ≠ [])
    (h : ∀ l ∈ lines, ('\n' : Char) ∉ l) :
    splitChar '\n' (joinNL lines) = lines := by
  induction lines with
  | nil => exact absurd rfl hne
  | cons l rest ih =>
    cases rest with
    | nil => exact splitChar_not_mem (h l (by simp))
    | cons l2 r2 =>
      rw [joinNL_cons_cons, splitChar_append l _ (h l (by simp)),
        ih (by simp) (fun q hq => h q (List.mem_cons_of_mem _ hq))]

theorem getLast_append_right (a b : Str) (hb : b ≠ []) :
    (a ++ b).getLast? = b.getLast? := by
  rw [List.getLast?_eq_head?_reverse, List.getLast?_eq_head?_reverse, List.reverse_append]
  cases hbr : b.reverse with
  | nil =>
    exact absurd (by simpa using congrArg List.reverse hbr) hb
  | cons c t =>
    rw [List.cons_append]
    rfl

theorem joinNL_getLast (lines : List Str) :
    ∀ l0, lines.getLast? = some l0 → l0 ≠ [] → (∀ l ∈ lines, l ≠ []) →
      (joinNL lines).getLast? = l0.getLast? := by
  induction lines with
  | nil => intro l0 h; cases h
  | cons l rest ih =>
    intro l0 h hl0 hall
    cases rest with
    | nil =>
      have : l = l0 := by
        simpa using h
      rw [this]
      rfl
    | cons l2 r2 =>
      rw [List.getLast?_cons_cons] at h
      rw [joinNL_cons_cons]
      have hJ : joinNL (l2 :: r2) ≠ [] := joinNL_ne_nil (hall l2 (by simp))
      rw [getLast_append_right l ('\n' :: joinNL (l2 :: r2)) (by simp)]
      cases hj : joinNL (l2 :: r2) with
      | nil => exact absurd hj hJ
      | cons c t =>
        rw [List.getLast?_cons_cons, ← hj]
        exact ih l0 h hl0 (fun q hq => hall q (List.mem_cons_of_mem _ hq))

-- Facts about a rendered address line with clean tokens.

theorem render_address_ne_nil (a : DAddr) : render_address a ≠ [] := by
  unfold render_address
  cases h : a.1 with
  | nil => simp
  | cons c t => simp

theorem render_address_no_newline {a : DAddr}
    (h1 : token_clean a.1 = true) (h2 : token_clean a.2 = true) :
    ('\n' : Char) ∉ render_address a := by
  unfold render_address
  intro hm
  rw [List.mem_append, List.mem_cons] at hm
  rcases hm with hm | hm | hm
  · have hw : wsFree a.1 = true := by
      simp only [token_clean, Bool.and_eq_true] at h1
      exact h1.1
    exact not_mem_of_wsFree hw (by decide) hm
  · cases hm
  · have hw : wsFree a.2 = true := by
      simp only [token_clean, Bool.and_eq_true] at h2
      exact h2.1
    exact not_mem_of_wsFree hw (by decide) hm

theorem render_address_head {a : DAddr} (h1 : token_clean a.1 = true) :
    ∀ c, (render_address a).head? = some c → isPySpace c = false := by
  unfold render_address
  cases ha : a.1 with
  | nil =>
    intro c hc
    rw [List.nil_append] at hc
    injection hc with he
    rw [← he]
    rfl
  | cons d t =>
    intro c hc
    rw [List.cons_append] at hc
    injection hc with he
    have hw : wsFree a.1 = true := by
      simp only [token_clean, Bool.and_eq_true] at h1
      exact h1.1
    rw [← he]
    exact wsFree_mem hw (by rw [ha]; simp)

theorem render_address_getLast {a : DAddr} (h2 : token_clean a.2 = true) :
    ∀ c, (render_address a).getLast? = some c → isPySpace c = false := by
  unfold render_address
  intro c hc
  rw [getLast_append_right a.1 (':' :: a.2) (by simp)] at hc
  cases hp : a.2 with
  | nil =>
    rw [hp] at hc
    injection hc with he
    rw [← he]
    rfl
  | cons d t =>
    rw [hp, List.getLast?_cons_cons] at hc
    have hw : wsFree a.2 = true := by
      simp only [token_clean, Bool.and_eq_true] at h2
      exact h2.1
    have hmem : c ∈ a.2 := by
      rw [hp]
      obtain ⟨l', hl'⟩ := List.getLast?_eq_some_iff.mp hc
      rw [hl']
      simp
    exact wsFree_mem hw hmem

theorem splitChar_render {a : DAddr} (h1 : token_clean a.1 = true)
    (h2 : token_clean a.2 = true) :
    splitChar ':' (render_address a) = [a.1, a.2] := by
  unfold render_address
  have hc1 : (':' : Char) ∉ a.1 := by
    simp only [token_clean, Bool.and_eq_true, Bool.not_eq_true', decide_eq_false_iff_not] at h1
    exact h1.2
  have hc2 : (':' : Char) ∉ a.2 := by
    simp only [token_clean, Bool.and_eq_true, Bool.not_eq_true', decide_eq_false_iff_not] at h2
    exact h2.2
  rw [splitChar_append a.1 a.2 hc1, splitChar_not_mem hc2]

theorem join_parse_listing (addrs : List DAddr) (hne : addrs ≠ [])
    (hclean : ∀ p ∈ addrs, token_clean p.1 = true ∧ token_clean p.2 = true) :
    join_discovery_parse (pyStrip (listing_message addrs)) =
      some (addrs.map (fun p => [p.1, p.2])) := by
  have hlines_ne : addrs.map render_address ≠ [] := by simpa using hne
  have hl_ne : ∀ l ∈ addrs.map render_address, l ≠ [] := by
    intro l hl
    obtain ⟨p, hp, he⟩ := List.mem_map.mp hl
    rw [← he]
    exact render_address_ne_nil p
  have hl_nonl : ∀ l ∈ addrs.map render_address, ('\n' : Char) ∉ l := by
    intro l hl
    obtain ⟨p, hp, he⟩ := List.mem_map.mp hl
    rw [← he]
    exact render_address_no_newline (hclean p hp).1 (hclean p hp).2
  have hmsg : listing_message addrs =
      ("Peer-Node-Address-Listing".data ++
        '\n' :: joinNL (addrs.map render_address)) ++ ['\n'] := by
    rfl
  have hJne : joinNL (addrs.map render_address) ≠ [] := by
    cases hL : addrs.map render_address with
    | nil => exact absurd hL hlines_ne
    | cons l rest =>
      exact joinNL_ne_nil (hl_ne l (by rw [hL]; simp))
  have hstrip : pyStrip (listing_message addrs) =
      "Peer-Node-Address-Listing".data ++ '\n' :: joinNL (addrs.map render_address) := by
    rw [hmsg, pyStrip_append_newline]
    apply pyStrip_eq_self
    · apply dropWhile_eq_self_of_head
      intro c hc
      have he : ("Peer-Node-Address-Listing".data ++
          '\n' :: joinNL (addrs.map render_address)).head? = some 'P' := rfl
      rw [he] at hc
      injection hc with he2
      rw [← he2]
      rfl
    · apply dropWhile_eq_self_of_head
      intro c hc
      rw [← List.getLast?_eq_head?_reverse] at hc
      have hl0s : (addrs.map render_address).getLast? =
          some ((addrs.map render_address).getLast hlines_ne) :=
        List.getLast?_eq_getLast_of_ne_nil hlines_ne
      have hl0mem := List.getLast_mem hlines_ne
      have hJlast : (joinNL (addrs.map render_address)).getLast? =
          ((addrs.map render_address).getLast hlines_ne).getLast? :=
        joinNL_getLast _ _ hl0s (hl_ne _ hl0mem) hl_ne
      rw [getLast_append_right _ _ (by simp)] at hc
      have hc2 : (joinNL (addrs.map render_address)).getLast? = some c := by
        cases hj : joinNL (addrs.map render_address) with
        | nil => exact absurd hj hJne
        | cons d t =>
          rw [hj, List.getLast?_cons_cons] at hc
          exact hc
      rw [hJlast] at hc2
      obtain ⟨p, hp, he⟩ := List.mem_map.mp hl0mem
      rw [← he] at hc2
      exact render_address_getLast (hclean p hp).2 c hc2
  unfold join_discovery_parse
  rw [hstrip,
    if_pos (List.isPrefixOf_iff_prefix.mpr (List.prefix_append _ _)),
    splitChar_append _ _ (by decide),
    splitChar_joinNL _ hlines_ne hl_nonl]
  have hdrop : ("Peer-Node-Address-Listing".data :: addrs.map render_address).drop 1 =
      addrs.map render_address := rfl
  rw [hdrop]
  have hfil : (addrs.map render_address).filter (fun l => l ≠ []) =
      addrs.map render_address :=
    List.filter_eq_self.mpr (fun l hl => by simpa using hl_ne l hl)
  rw [hfil, List.map_map]
  have hmapeq : addrs.map (splitChar ':' ∘ render_address) =
      addrs.map (fun p => [p.1, p.2]) :=
    List.map_congr_left (fun p hp => splitChar_render (hclean p hp).1 (hclean p hp).2)
  rw [hmapeq]

-- ===== Self query lemmas (for C9) =====

theorem self_reply_nil (st : FsState) : self_reply st [] = some error_sentinel := rfl

theorem self_reply_eq (st : FsState) (f : Str) (hf : wsFree f = true) (hfne : f ≠ []) :
    self_reply st f = some ((get_timestamp st f).getD "File not found".data) := by
  unfold self_reply
  have hmsg : "Last-Modified-Check ".data ++ f ++ ['\n'] =
      ("Last-Modified-Check ".data ++ f) ++ ['\n'] := rfl
  have hassoc : "Last-Modified-Check ".data ++ f =
      "Last-Modified-Check".data ++ ' ' :: f := by
    have h1 : "Last-Modified-Check ".data = "Last-Modified-Check".data ++ [' '] := rfl
    rw [h1, List.append_assoc]
    rfl
  have hstrip : pyStrip ("Last-Modified-Check ".data ++ f ++ ['\n']) =
      "Last-Modified-Check ".data ++ f := by
    rw [hmsg, pyStrip_append_newline]
    apply pyStrip_eq_self
    · apply dropWhile_eq_self_of_head
      intro c hc
      have he : (("Last-Modified-Check ".data ++ f)).head? = some 'L' := rfl
      rw [he] at hc
      injection hc with he2
      rw [← he2]
      rfl
    · apply dropWhile_eq_self_of_head
      intro c hc
      rw [← List.getLast?_eq_head?_reverse] at hc
      rw [getLast_append_right _ f hfne] at hc
      obtain ⟨l', hl'⟩ := List.getLast?_eq_some_iff.mp hc
      have hmem : c ∈ f := by
        rw [hl']
        simp
      exact wsFree_mem hf hmem
  rw [hstrip, hassoc]
  unfold handle_socket_request
  rw [if_pos (List.isPrefixOf_iff_prefix.mpr (List.prefix_append _ _))]
  have hsplit : pySplit ("Last-Modified-Check".data ++ ' ' :: f) =
      ["Last-Modified-Check".data, f] := by
    rw [pySplit_space_append, pySplit_token "Last-Modified-Check".data (by decide) (by decide),
      pySplit_token f hfne (fun c hc => wsFree_mem hf hc)]
    rfl
  rw [hsplit]
  show (match (match get_timestamp st f with
      | some r => SockReply.text r
      | none => SockReply.text "File not found".data) with
    | SockReply.text s => some s
    | _ => none) = some ((get_timestamp st f).getD "File not found".data)
  cases hg : get_timestamp st f with
  | some m => rfl
  | none => rfl

theorem peer_scan_self_skip (st : FsState) (f : Str) (hf : wsFree f = true) :
    ∀ (ts : Nat), local_ts st f ≤ ts → ∀ lat nod l2,
      peer_scan (self_reply st f :: l2) ts lat nod = peer_scan l2 ts lat nod := by
  intro ts hts lat nod l2
  by_cases hfe : f = []
  · subst hfe
    rw [self_reply_nil]
    have hp : List.isPrefixOf "Last-Modified".data error_sentinel = false := by decide
    simp [peer_scan, hp]
  · rw [self_reply_eq st f hf hfe]
    cases hg : get_timestamp st f with
    | none =>
      have hp : List.isPrefixOf "Last-Modified".data "File not found".data = false := by decide
      simp [peer_scan, hp]
    | some m =>
      obtain ⟨hv, e, hl, hme⟩ := get_timestamp_some_iff.mp hg
      subst hme
      have hpre := isPrefixOf_lm_message f e.mtime st.host
      have hts_local : local_ts st f = e.mtime := local_ts_of_entry hv hl
      have hsplit := pySplit_lm_message f hf (validate_ne_nil hv) e.mtime st.host
      cases hh : pySplit st.host with
      | nil =>
        have hpl : parse_last_modified (lm_message f e.mtime st.host) = none := by
          unfold parse_last_modified
          rw [hsplit, hh]
        simp [peer_scan, hpre, hpl]
      | cons x tail =>
        cases tail with
        | nil =>
          have hpl : parse_last_modified (lm_message f e.mtime st.host) =
              some (e.mtime, x) := by
            unfold parse_last_modified
            rw [hsplit, hh]
            simp [natParse_natRepr]
          have hnotlt : ¬ ts < e.mtime := by omega
          simp [peer_scan, hpre, hpl, hnotlt]
        | cons y t2 =>
          have hpl : parse_last_modified (lm_message f e.mtime st.host) = none := by
            unfold parse_last_modified
            rw [hsplit, hh]
          simp [peer_scan, hpre, hpl]

theorem peer_scan_middle_self (st : FsState) (f : Str) (hf : wsFree f = true)
    (l2 : List (Option Str)) :
    ∀ (l1 : List (Option Str)) (ts : Nat), local_ts st f ≤ ts → ∀ lat nod,
      peer_scan (l1 ++ self_reply st f :: l2) ts lat nod =
        peer_scan (l1 ++ l2) ts lat nod := by
  intro l1
  induction l1 with
  | nil =>
    intro ts hts lat nod
    exact peer_scan_self_skip st f hf ts hts lat nod l2
  | cons p rest ih =>
    intro ts hts lat nod
    cases p with
    | none =>
      have e1 : peer_scan ((none :: rest) ++ self_reply st f :: l2) ts lat nod =
          peer_scan (rest ++ self_reply st f :: l2) ts lat nod := rfl
      have e2 : peer_scan ((none :: rest) ++ l2) ts lat nod =
          peer_scan (rest ++ l2) ts lat nod := rfl
      rw [e1, e2]
      exact ih ts hts lat nod
    | some r =>
      by_cases hpre : List.isPrefixOf "Last-Modified".data r = true
      · cases hp : parse_last_modified r with
        | none =>
          have := ih ts hts lat nod
          simpa [peer_scan, hpre, hp] using this
        | some tn =>
          obtain ⟨t, n⟩ := tn
          by_cases hlt : ts < t
          · have := ih t (Nat.le_trans hts (Nat.le_of_lt hlt)) (some r) (some n)
            simpa [peer_scan, hpre, hp, hlt] using this
          · have := ih ts hts lat nod
            simpa [peer_scan, hpre, hp, hlt] using this
      · have := ih ts hts lat nod
        simpa [peer_scan, hpre] using this

-- ===== C9: the joiner hears about itself, and the self query is harmless =====

/-- C9 (corrected): the listing a joiner receives from registration
always contains the joiner's own address: with clean (whitespace-free
and colon-free) host and port tokens throughout the registry, the joiner
parses the stripped reply into exactly the key set of the updated
registry, which includes itself, so its cached peer list contains its
own address and conflict resolution also queries the node itself.  For
a whitespace-free filename this self-query never changes the resolution
outcome, because the self reply carries exactly the local timestamp and
only strictly greater timestamps are adopted.  The original claim,
with no restriction on the filename, is false: a filename containing a
space makes the self-query ask about a truncated name, which can change
the outcome (see the counterexample). -/
theorem registration_self_query_harmless (reg : Registry) (a : DAddr) (now : Nat)
    (st : FsState) (f : Str) (l1 l2 : List (Option Str))
    (hcreg : ∀ p ∈ reg, token_clean p.1.1 = true ∧ token_clean p.1.2 = true)
    (hca1 : token_clean a.1 = true) (hca2 : token_clean a.2 = true)
    (hf : wsFree f = true) :
    (∃ ns, join_discovery_parse (pyStrip (register_node reg a now).2) = some ns ∧
      [a.1, a.2] ∈ ns) ∧
    latest_timestamp st f (l1 ++ self_reply st f :: l2) =
      latest_timestamp st f (l1 ++ l2) := by
  constructor
  · have hmem_a : a ∈ (register_node reg a now).1.map (fun p => p.1) :=
      (register_node_keys reg a now a).mpr (Or.inr rfl)
    have hne : (register_node reg a now).1.map (fun p => p.1) ≠ [] := by
      intro hcon
      rw [hcon] at hmem_a
      cases hmem_a
    have hclean : ∀ p ∈ (register_node reg a now).1.map (fun p => p.1),
        token_clean p.1 = true ∧ token_clean p.2 = true := by
      intro p hp
      rcases (register_node_keys reg a now p).mp hp with hin | hpa
      · obtain ⟨q, hq, he⟩ := List.mem_map.mp hin
        rw [← he]
        exact hcreg q hq
      · rw [hpa]
        exact ⟨hca1, hca2⟩
    have hreply : (register_node reg a now).2 =
        listing_message ((register_node reg a now).1.map (fun p => p.1)) := rfl
    rw [hreply, join_parse_listing _ hne hclean]
    exact ⟨_, rfl, List.mem_map.mpr ⟨a, hmem_a, rfl⟩⟩
  · rw [latest_timestamp_eq_scan st f _ hf, latest_timestamp_eq_scan st f _ hf,
      peer_scan_middle_self st f hf l2 l1 (local_ts st f) (Nat.le_refl _)]

/-- C9 counterexample: with the whitespace-containing filename a b
(absent locally) while a file named a is present with timestamp 50, the
self-query message is tokenized by the receiving dispatcher into the
truncated filename a, the resulting reply is adopted, and resolution
with the self reply present gives a different outcome (owner self,
claim about a) than without it (no claim at all): the self-query
changed the resolution outcome. -/
theorem self_query_changes_outcome :
    latest_timestamp ⟨[("a".data, ⟨50, []⟩)], "h:1".data⟩ "a b".data
        [self_reply ⟨[("a".data, ⟨50, []⟩)], "h:1".data⟩ "a b".data] =
      Except.ok (some "Last-Modified a 50 h:1".data, some "h:1".data) ∧
    latest_timestamp ⟨[("a".data, ⟨50, []⟩)], "h:1".data⟩ "a b".data [] =
      Except.ok (none, none) := ⟨rfl, rfl⟩

/-- C9 witness: a fresh joiner into an empty registry, and a self query
inserted after one unreachable peer. -/
theorem registration_self_query_harmless_witness :
    (∃ ns, join_discovery_parse
        (pyStrip (register_node [] ("9.9.9.9".data, "7000".data) 5).2) = some ns ∧
      [("9.9.9.9".data, "7000".data).1, ("9.9.9.9".data, "7000".data).2] ∈ ns) ∧
    latest_timestamp ⟨[("k".data, ⟨4, []⟩)], "h:1".data⟩ "k".data
        ([none] ++ self_reply ⟨[("k".data, ⟨4, []⟩)], "h:1".data⟩ "k".data :: []) =
      latest_timestamp ⟨[("k".data, ⟨4, []⟩)], "h:1".data⟩ "k".data ([none] ++ []) :=
  registration_self_query_harmless [] ("9.9.9.9".data, "7000".data) 5
    ⟨[("k".data, ⟨4, []⟩)], "h:1".data⟩ "k".data [none] []
    (fun p hp => absurd hp (List.not_mem_nil p)) (by decide) (by decide) (by decide)
